import Mathlib

/-!
# Verification of the rover task orchestrator against its specification

This development shallowly embeds, in Lean 4, the parts of the rover
code base that the specification's claims are about:

* the task/iteration state machine of `TaskDescriptionManager`
  (`setStatus`, `restart`, `updateStatusFromIteration`, the restart
  command's status guard);
* the credit/quota exhaustion detector of the CLI agents module
  (`CREDIT_EXHAUSTED_PATTERN` / `isCreditExhaustedError`);
* the persisted-JSON document layer (`save` / `load` / `migrate`) with a
  model of `JSON.stringify(data, null, 2)` and `JSON.parse`;
* the subprocess step runner (`Runner.prompt`, `Runner.loadValueByType`,
  `Runner.run`, `Runner.parseStepOutputs`, `Runner.extractStringOutputs`,
  `Runner.extractFileOutputs`).

Strings are modelled as `List Char` (named `Str` below) so that concrete
executions can be settled by `decide` and symbolic executions by list
induction.  JavaScript-specific semantics that the source relies on
(truthiness, `String.prototype.replace` dollar substitution, `Map`
insertion order, property access) are modelled explicitly where the
source depends on them.  File-system access and child-process execution
are modelled as explicit parameters (a file-state function, a launch
result), since the claims quantify over their outcomes.
-/

/-- JavaScript strings, modelled as lists of characters. -/
abbrev Str := List Char

/-- Shorthand: the character list of a Lean string literal. -/
def strOf (s : String) : Str := s.data

/-- JS truthiness of a possibly-undefined string value: `undefined` and
the empty string are falsy, every other string is truthy. -/
def strFalsy : Option Str → Bool
  | none => true
  | some s => s.isEmpty

/-- JS `a || b` for a possibly-undefined string `a` with default `b`
(used for `metadata?.timestamp || new Date().toISOString()`). -/
def jsOrStr (a : Option Str) (b : Str) : Str :=
  match a with
  | some s => if s.isEmpty then b else s
  | none => b

/-! ## Task/Iteration state machine (`TaskDescriptionManager`)

Embeds the status-transition methods of
`TaskDescriptionManager` (source file `src/unnamed/part_000`).  Disk
writes (`save()`) always re-serialize the whole document, so the pure
state transition below is the entire observable effect on the task data;
`new Date().toISOString()` is modelled as an explicit `now` argument. -/

/-- The closed task status enum (`TaskStatusSchema` in
`packages/schemas/src/task-description/schema.ts`). -/
inductive TaskStatus
  | NEW
  | IN_PROGRESS
  | ITERATING
  | COMPLETED
  | FAILED
  | PAUSED_CREDITS
  | MERGED
  | PUSHED
deriving DecidableEq, Repr

/-- The task description fields that the status-transition methods read
or write (a projection of `TaskDescription`; fields the transitions never
touch are omitted, they are carried through unchanged by `{ d with ... }`
updates just as the source mutates only the listed properties). -/
structure TaskDescription where
  id : Int
  status : TaskStatus
  createdAt : Str
  startedAt : Option Str := none
  completedAt : Option Str := none
  failedAt : Option Str := none
  lastIterationAt : Option Str := none
  lastStatusCheck : Option Str := none
  iterations : Int := 1
  error : Option Str := none
  restartCount : Option Int := none
  lastRestartAt : Option Str := none
deriving DecidableEq, Repr

/-- `StatusMetadata`: optional timestamp and error carried into
`setStatus`. -/
structure StatusMetadata where
  timestamp : Option Str := none
  error : Option Str := none
deriving DecidableEq, Repr

/-- `TaskDescriptionManager.setStatus(status, metadata?)` (part_000
lines 332-372).  `metadata?.timestamp || new Date().toISOString()` uses
JS truthiness, hence `jsOrStr`; `if (metadata?.error)` is a truthiness
test, hence the non-empty check. -/
def setStatus (d : TaskDescription) (status : TaskStatus)
    (metadata : Option StatusMetadata) (now : Str) : TaskDescription :=
  let d := { d with status := status }
  let timestamp := jsOrStr (metadata.bind (·.timestamp)) now
  let metaError := metadata.bind (·.error)
  let d :=
    match status with
    | .IN_PROGRESS =>
        if strFalsy d.startedAt then { d with startedAt := some timestamp } else d
    | .ITERATING => { d with lastIterationAt := some timestamp }
    | .COMPLETED => { d with completedAt := some timestamp }
    | .FAILED =>
        let d := { d with failedAt := some timestamp }
        if strFalsy metaError then d else { d with error := metaError }
    | .PAUSED_CREDITS =>
        let d := { d with failedAt := some timestamp }
        if strFalsy metaError then d else { d with error := metaError }
    | .MERGED =>
        if strFalsy d.completedAt then { d with completedAt := some timestamp } else d
    | .PUSHED =>
        if strFalsy d.completedAt then { d with completedAt := some timestamp } else d
    | .NEW => d
  { d with lastStatusCheck := some timestamp }

/-- `TaskDescriptionManager.markCompleted(completedAt?)`. -/
def markCompleted (d : TaskDescription) (completedAt : Option Str) (now : Str) :
    TaskDescription :=
  setStatus d .COMPLETED (some { timestamp := completedAt }) now

/-- `TaskDescriptionManager.markMerged(timestamp?)`. -/
def markMerged (d : TaskDescription) (timestamp : Option Str) (now : Str) :
    TaskDescription :=
  setStatus d .MERGED (some { timestamp := timestamp }) now

/-- `TaskDescriptionManager.markPushed(timestamp?)`. -/
def markPushed (d : TaskDescription) (timestamp : Option Str) (now : Str) :
    TaskDescription :=
  setStatus d .PUSHED (some { timestamp := timestamp }) now

/-- `TaskDescriptionManager.restart(timestamp?)` (part_000 lines
426-435): bump the restart counter (`(restartCount || 0) + 1`, where the
JS `||` sends `undefined` and `0` to `0`), record the restart time, then
reset to `IN_PROGRESS` through `setStatus`. -/
def restart (d : TaskDescription) (timestamp : Option Str) (now : Str) :
    TaskDescription :=
  let restartTimestamp := jsOrStr timestamp now
  let base : Int := match d.restartCount with
    | some n => if n = 0 then 0 else n
    | none => 0
  let d := { d with
    restartCount := some (base + 1)
    lastRestartAt := some restartTimestamp }
  setStatus d .IN_PROGRESS (some { timestamp := some restartTimestamp }) now

/-- The per-iteration status document (`status.json`): machine state
string plus timestamps and error, as read by
`updateStatusFromIteration`. -/
structure IterationStatusDoc where
  status : Str
  completedAt : Option Str := none
  updatedAt : Option Str := none
  error : Option Str := none
deriving DecidableEq, Repr

/-- `TaskDescriptionManager.updateStatusFromIteration()` (part_000 lines
581-626), with the latest iteration's status document passed explicitly
(the source loads it from disk via `getLastIteration()`; `none` models
the no-iteration case).  The `completed` arm of the switch computes
`status.status.toUpperCase()`, which for the matched literal
`'completed'` is `'COMPLETED'`. -/
def updateStatusFromIteration (d : TaskDescription)
    (iteration : Option IterationStatusDoc) (now : Str) : TaskDescription :=
  match iteration with
  | none => d
  | some st =>
    let target : TaskStatus × Option Str × Option Str :=
      if st.status = strOf "completed" then (.COMPLETED, st.completedAt, none)
      else if st.status = strOf "failed" then (.FAILED, st.completedAt, st.error)
      else if st.status = strOf "credit_exhausted" then
        (.PAUSED_CREDITS, st.completedAt, st.error)
      else if st.status = strOf "running" then (.ITERATING, st.updatedAt, none)
      else (.IN_PROGRESS, st.updatedAt, none)
    let statusName := target.1
    let timestamp := target.2.1
    let error := target.2.2
    if statusName = .COMPLETED ∧ (d.status = .MERGED ∨ d.status = .PUSHED) then d
    else setStatus d statusName (some { timestamp := timestamp, error := error }) now

/-- The restart command's status guard
(`packages/cli/src/commands/restart.ts` lines 79-92): a task may be
restarted exactly when `isNew() || isFailed() || isPausedCredits()`;
otherwise the command exits with an error before calling
`task.restart`. -/
def canRestart (s : TaskStatus) : Bool :=
  s = .NEW || s = .FAILED || s = .PAUSED_CREDITS

/-! ## Credit/quota exhaustion detection (`packages/cli/src/lib/agents/index.ts`)

`isCreditExhaustedError` stringifies the error's `message`, `stderr` and
`stdout`, joins them with newlines and tests the combined text against
`CREDIT_EXHAUSTED_PATTERN`, a case-insensitive alternation of fixed
phrases whose words are separated by `[_\s]`.  The JS value passed in is
modelled by `ErrVal`; `String()` coercion of `null`, `undefined`, plain
objects and strings is spelled out as the source observes it. -/

/-- The fields of an error-like object that the detector reads.  A field
that is present holds a string (string coercion of non-string field
values is not needed by any claim). -/
structure JsErrObj where
  message : Option Str := none
  stderr : Option Str := none
  stdout : Option Str := none
deriving DecidableEq, Repr

/-- The JS values fed to `isCreditExhaustedError`: `null`, `undefined`,
a primitive string, or an object with optional `message` / `stderr` /
`stdout` fields (this covers `Error` instances, which expose
`message`). -/
inductive ErrVal
  | jsNull
  | jsUndef
  | str (s : Str)
  | obj (o : JsErrObj)
deriving DecidableEq, Repr

/-- The `msg` extraction: `'message' in error` selects the field,
otherwise `String(error)` (so `"null"`, `"undefined"`, the string
itself, or `"[object Object]"`). -/
def errMsgOf : ErrVal → Str
  | .jsNull => strOf "null"
  | .jsUndef => strOf "undefined"
  | .str s => s
  | .obj o =>
    match o.message with
    | some m => m
    | none => strOf "[object Object]"

/-- The `stderr` extraction: present and non-null fields only. -/
def errStderrOf : ErrVal → Str
  | .obj o => o.stderr.getD []
  | _ => []

/-- The `stdout` extraction: present and non-null fields only. -/
def errStdoutOf : ErrVal → Str
  | .obj o => o.stdout.getD []
  | _ => []

/-- The combined text: msg, stderr and stdout joined by newlines. -/
def errCombined (e : ErrVal) : Str :=
  errMsgOf e ++ '\n' :: (errStderrOf e ++ '\n' :: errStdoutOf e)

/-- Lower-casing for the `/i` flag (the pattern itself is all
lower-case ASCII). -/
def lowerStr (s : Str) : Str := s.map Char.toLower

/-- Substring test: does `pat` occur contiguously in `s`? -/
def containsSub (s pat : Str) : Bool :=
  pat.isPrefixOf s ||
    match s with
    | [] => false
    | _ :: t => containsSub t pat

/-- The word separators admitted by `[_\s]` in the pattern (underscore
or whitespace; the whitespace characters that occur in process output
are modelled). -/
def wordSeps : List Char := ['_', ' ', '\t', '\n', '\r']

/-- All strings denoted by a word list joined with one `[_\s]` separator
between consecutive words. -/
def sepJoins : List Str → List Str
  | [] => [[]]
  | [w] => [w]
  | w :: ws => (sepJoins ws).flatMap (fun r => wordSeps.map (fun c => w ++ c :: r))

/-- The alternatives of `CREDIT_EXHAUSTED_PATTERN`
(`/quota[_\s]exceeded|credits[_\s]exhausted|insufficient[_\s]quota|usage[_\s]limit|credit[_\s]limit|out[_\s]of[_\s]credits|429|rate[_\s]limit/i`),
as word lists. -/
def creditWordLists : List (List Str) :=
  [ [strOf "quota", strOf "exceeded"]
  , [strOf "credits", strOf "exhausted"]
  , [strOf "insufficient", strOf "quota"]
  , [strOf "usage", strOf "limit"]
  , [strOf "credit", strOf "limit"]
  , [strOf "out", strOf "of", strOf "credits"]
  , [strOf "429"]
  , [strOf "rate", strOf "limit"] ]

/-- Every concrete string matched by some alternative of the pattern. -/
def creditPatternStrings : List Str := creditWordLists.flatMap sepJoins

/-- `CREDIT_EXHAUSTED_PATTERN.test(s)`: some alternative occurs in `s`,
case-insensitively. -/
def creditPatternTest (s : Str) : Bool :=
  creditPatternStrings.any (fun p => containsSub (lowerStr s) p)

/-- `isCreditExhaustedError(error)` (agents/index.ts lines 163-184). -/
def isCreditExhaustedError (e : ErrVal) : Bool :=
  creditPatternTest (errCombined e)

/-! ## Persisted JSON documents (`description.json` save / load / migrate)

`TaskDescriptionManager.save()` writes `JSON.stringify(this.data, null,
2)`; `load()` does `JSON.parse` and then `migrate`, which returns the
document unchanged when `data.version` already equals
`CURRENT_TASK_DESCRIPTION_SCHEMA_VERSION` (`'1.5'`).  The document model
`JVal` covers the JSON grammar as it appears in task documents, with one
stated restriction: numbers are integers (every numeric field of
`TaskDescriptionSchema` is `z.number().int()`), so the number grammar
below has no fraction or exponent part and the parser rejects them
explicitly.  `JSON.stringify(_, null, 2)` pretty-printing (two-space
indent, one member per line, `": "` after keys, closing bracket at the
parent indent) is reproduced exactly. -/

/-- A JSON document value (JS object key order is insertion order, kept
as the list order; the documents written by the manager have pairwise
distinct keys). -/
inductive JVal
  | null
  | bool (b : Bool)
  | num (i : Int)
  | str (s : Str)
  | arr (elems : List JVal)
  | obj (members : List (Str × JVal))
deriving Inhabited

/-- `n` spaces of indentation. -/
def spaces (n : Nat) : Str := List.replicate n ' '

/-- The lower-case hex digit for `n < 16`. -/
def toHexDigitCh (n : Nat) : Char :=
  if n < 10 then Char.ofNat (48 + n) else Char.ofNat (97 + (n - 10))

/-- One character as `JSON.stringify` quotes it: the two-character
escapes for quote, backslash and the named control characters, a
`\u00xx` escape for the remaining control characters, and the character
itself otherwise. -/
def escapeChar (c : Char) : Str :=
  if c = '"' then ['\\', '"']
  else if c = '\\' then ['\\', '\\']
  else if c = Char.ofNat 8 then ['\\', 'b']
  else if c = '\t' then ['\\', 't']
  else if c = '\n' then ['\\', 'n']
  else if c = Char.ofNat 12 then ['\\', 'f']
  else if c = '\r' then ['\\', 'r']
  else if c.toNat < 32 then
    ['\\', 'u', '0', '0', toHexDigitCh (c.toNat / 16), toHexDigitCh (c.toNat % 16)]
  else [c]

/-- A string body, escaped. -/
def escapeStr (s : Str) : Str := s.flatMap escapeChar

/-- A quoted JSON string. -/
def renderQ (s : Str) : Str := '"' :: (escapeStr s ++ ['"'])

/-- Decimal digits of `n`, most significant first (fuel-structural so
that it evaluates by kernel reduction; `n` itself bounds the number of
division steps). -/
def natDigitsGo : Nat → Nat → Str → Str
  | 0, n, acc => Char.ofNat (48 + n % 10) :: acc
  | f + 1, n, acc =>
    if n < 10 then Char.ofNat (48 + n % 10) :: acc
    else natDigitsGo f (n / 10) (Char.ofNat (48 + n % 10) :: acc)

/-- Decimal digits of `n`. -/
def natDigits (n : Nat) : Str := natDigitsGo n n []

/-- The decimal characters of an integer, as `JSON.stringify` emits an
integral JS number. -/
def intChars (i : Int) : Str :=
  (if i < 0 then ['-'] else []) ++ natDigits i.natAbs

mutual
/-- `JSON.stringify(v, null, 2)` at indentation `ind`: the exact
pretty-printed text. -/
def renderV : Nat → JVal → Str
  | _, .null => strOf "null"
  | _, .bool true => strOf "true"
  | _, .bool false => strOf "false"
  | _, .num i => intChars i
  | _, .str s => renderQ s
  | _, .arr [] => ['[', ']']
  | ind, .arr (x :: xs) =>
    '[' :: '\n' :: (renderItems (ind + 2) (x :: xs) ++ '\n' :: (spaces ind ++ [']']))
  | _, .obj [] => ['{', '}']
  | ind, .obj (m :: ms) =>
    '{' :: '\n' :: (renderMembers (ind + 2) (m :: ms) ++ '\n' :: (spaces ind ++ ['}']))
/-- Array elements, one per line at indentation `ind`, comma-separated. -/
def renderItems : Nat → List JVal → Str
  | _, [] => []
  | ind, [x] => spaces ind ++ renderV ind x
  | ind, x :: y :: xs =>
    spaces ind ++ renderV ind x ++ ',' :: '\n' :: renderItems ind (y :: xs)
/-- Object members, one per line at indentation `ind`, comma-separated,
with `": "` between key and value. -/
def renderMembers : Nat → List (Str × JVal) → Str
  | _, [] => []
  | ind, [(k, v)] => spaces ind ++ (renderQ k ++ ':' :: ' ' :: renderV ind v)
  | ind, (k, v) :: m :: ms =>
    spaces ind ++ (renderQ k ++ ':' :: ' ' :: renderV ind v) ++
      ',' :: '\n' :: renderMembers ind (m :: ms)
end

/-- JSON whitespace (`JSON.parse` skips space, tab, newline, carriage
return). -/
def isWsCh (c : Char) : Bool := c = ' ' || c = '\t' || c = '\n' || c = '\r'

/-- Skip leading JSON whitespace. -/
def skipWs : Str → Str
  | [] => []
  | c :: r => if isWsCh c then skipWs r else c :: r

/-- ASCII decimal digit. -/
def isDigitCh (c : Char) : Bool := 48 ≤ c.toNat && c.toNat ≤ 57

/-- Split a leading run of decimal digits. -/
def takeDigits : Str → Str × Str
  | [] => ([], [])
  | c :: r =>
    if isDigitCh c then
      let p := takeDigits r
      (c :: p.1, p.2)
    else ([], c :: r)

/-- The value of a digit run. -/
def digitsVal (ds : Str) : Nat :=
  ds.foldl (fun a c => a * 10 + (c.toNat - 48)) 0

/-- Hex digit value. -/
def hexValCh (c : Char) : Option Nat :=
  if 48 ≤ c.toNat ∧ c.toNat ≤ 57 then some (c.toNat - 48)
  else if 97 ≤ c.toNat ∧ c.toNat ≤ 102 then some (c.toNat - 87)
  else if 65 ≤ c.toNat ∧ c.toNat ≤ 70 then some (c.toNat - 55)
  else none

/-- Value of a four-hex-digit escape. -/
def hex4 (a b c d : Char) : Option Nat := do
  let va ← hexValCh a
  let vb ← hexValCh b
  let vc ← hexValCh c
  let vd ← hexValCh d
  some (((va * 16 + vb) * 16 + vc) * 16 + vd)

/-- The single-character escapes of the JSON grammar. -/
def unescapeCh (c : Char) : Option Char :=
  if c = '"' then some '"'
  else if c = '\\' then some '\\'
  else if c = '/' then some '/'
  else if c = 'b' then some (Char.ofNat 8)
  else if c = 'f' then some (Char.ofNat 12)
  else if c = 'n' then some '\n'
  else if c = 'r' then some '\r'
  else if c = 't' then some '\t'
  else none

/-- Parse a JSON string body after the opening quote.  Raw control
characters are rejected as in the JSON grammar; `\uXXXX` escapes decode
through `Char.ofNat` (surrogate pairs, which cannot occur in the
documents at hand, are not recombined). -/
def parseStrBody : Str → Option (Str × Str)
  | [] => none
  | c :: r =>
    if c = '"' then some ([], r)
    else if c = '\\' then
      match r with
      | 'u' :: a :: b :: c2 :: d :: r2 => do
        let n ← hex4 a b c2 d
        let p ← parseStrBody r2
        some (Char.ofNat n :: p.1, p.2)
      | e :: r2 => do
        let ch ← unescapeCh e
        let p ← parseStrBody r2
        some (ch :: p.1, p.2)
      | [] => none
    else if c.toNat < 32 then none
    else do
      let p ← parseStrBody r
      some (c :: p.1, p.2)

/-- Parse a JSON integer token (optional minus, digit run with no
leading zero).  A following `.`, `e` or `E` would start the
fraction/exponent grammar, which the integer-restricted model rejects
explicitly rather than misreading. -/
def parseIntTok (s : Str) : Option (Int × Str) :=
  let neg : Bool := s.head? = some '-'
  let s1 : Str := if neg then s.tail else s
  let p := takeDigits s1
  let ds := p.1
  let r := p.2
  if ds.isEmpty then none
  else if 1 < ds.length ∧ ds.head? = some '0' then none
  else
    let i : Int := (if neg then -1 else 1) * (digitsVal ds : Int)
    if r.head?.any (fun c => c = '.' || c = 'e' || c = 'E') then none
    else some (i, r)

mutual
/-- `JSON.parse`, value production (fuel-structural; the wrapper
`jsonParse` supplies fuel from the input length). -/
def parseV : Nat → Str → Option (JVal × Str)
  | 0, _ => none
  | f + 1, s =>
    match skipWs s with
    | 'n' :: 'u' :: 'l' :: 'l' :: r => some (.null, r)
    | 't' :: 'r' :: 'u' :: 'e' :: r => some (.bool true, r)
    | 'f' :: 'a' :: 'l' :: 's' :: 'e' :: r => some (.bool false, r)
    | '"' :: r =>
      match parseStrBody r with
      | some (body, r2) => some (.str body, r2)
      | none => none
    | '[' :: r =>
      match skipWs r with
      | ']' :: r2 => some (.arr [], r2)
      | _ =>
        match parseItems f r with
        | some (xs, r2) => some (.arr xs, r2)
        | none => none
    | '{' :: r =>
      match skipWs r with
      | '}' :: r2 => some (.obj [], r2)
      | _ =>
        match parseMembers f r with
        | some (ms, r2) => some (.obj ms, r2)
        | none => none
    | c :: r =>
      if c = '-' ∨ isDigitCh c then
        match parseIntTok (c :: r) with
        | some (i, r2) => some (.num i, r2)
        | none => none
      else none
    | [] => none
/-- One-or-more comma-separated array elements up to the closing
bracket. -/
def parseItems : Nat → Str → Option (List JVal × Str)
  | 0, _ => none
  | f + 1, s =>
    match parseV f s with
    | none => none
    | some (v, r) =>
      match skipWs r with
      | ',' :: r2 =>
        match parseItems f r2 with
        | some (vs, r3) => some (v :: vs, r3)
        | none => none
      | ']' :: r2 => some ([v], r2)
      | _ => none
/-- One-or-more comma-separated object members up to the closing
brace. -/
def parseMembers : Nat → Str → Option (List (Str × JVal) × Str)
  | 0, _ => none
  | f + 1, s =>
    match skipWs s with
    | '"' :: r =>
      match parseStrBody r with
      | none => none
      | some (k, r1) =>
        match skipWs r1 with
        | ':' :: r2 =>
          match parseV f r2 with
          | none => none
          | some (v, r3) =>
            match skipWs r3 with
            | ',' :: r4 =>
              match parseMembers f r4 with
              | some (ms, r5) => some ((k, v) :: ms, r5)
              | none => none
            | '}' :: r4 => some ([(k, v)], r4)
            | _ => none
        | _ => none
    | _ => none
end

/-- `JSON.parse(s)`: parse one value and require only whitespace to
follow. -/
def jsonParse (s : Str) : Option JVal :=
  match parseV (s.length + 1) s with
  | some (v, r) => if (skipWs r).isEmpty then some v else none
  | none => none

/-- Property lookup on a document value (`data.version`). -/
def objGet (d : JVal) (k : Str) : Option JVal :=
  match d with
  | .obj ms => (ms.find? (fun kv => kv.1 = k)).map (·.2)
  | _ => none

/-- `CURRENT_TASK_DESCRIPTION_SCHEMA_VERSION` (`'1.5'`). -/
def currentSchemaVersion : Str := strOf "1.5"

/-- `data.version === CURRENT_TASK_DESCRIPTION_SCHEMA_VERSION`: the
`version` property is a string strictly equal to `'1.5'`. -/
def versionIsCurrent (d : JVal) : Bool :=
  match objGet d (strOf "version") with
  | some (.str s) => s = currentSchemaVersion
  | _ => false

/-- `TaskDescriptionManager.migrate` (part_000 lines 172-179): a
document whose `version` already equals the current schema version is
returned as-is.  The legacy branch (field-by-field migration of older
documents) is irrelevant to any claim about current-version documents
and is abstracted as the function argument `legacy`. -/
def migrate (legacy : JVal → JVal) (d : JVal) : JVal :=
  if versionIsCurrent d then d else legacy d

/-- `save()` (part_000 lines 294-302): the bytes written to
`description.json` are `JSON.stringify(this.data, null, 2)`. -/
def saveBytes (d : JVal) : Str := renderV 0 d

/-- `load()` followed by re-serialization: parse the file, migrate (a
no-op at the current version), and stringify the in-memory data
again. -/
def loadThenSaveBytes (legacy : JVal → JVal) (text : Str) : Option Str :=
  (jsonParse text).map (fun loaded => saveBytes (migrate legacy loaded))

/-! ## Workflow data and JS string/Map primitives for the runner

The subprocess step runner (`packages/agent/src/lib/runner.ts`) works
over JS `Map`s (insertion-ordered), `String.prototype.replace` (first
occurrence, with `$`-substitution in the replacement), `trim`, `split`
and regex `matchAll` over `/\{\{([^}]+)\}\}/g`.  These primitives are
modelled first, then the runner methods. -/

/-- JS `Map.get`. -/
def mapGet (m : List (Str × Str)) (k : Str) : Option Str :=
  (m.find? (fun kv => kv.1 = k)).map (·.2)

/-- JS `Map.has`. -/
def mapHas (m : List (Str × Str)) (k : Str) : Bool :=
  (m.find? (fun kv => kv.1 = k)).isSome

/-- JS `Map.set`: update in place when the key exists (keeping its
position), append otherwise. -/
def mapSet (m : List (Str × Str)) (k v : Str) : List (Str × Str) :=
  match m with
  | [] => [(k, v)]
  | (k0, v0) :: t => if k0 = k then (k, v) :: t else (k0, v0) :: mapSet t k v

/-- Lookup in the per-step outputs map (`stepsOutput.get(stepId)`). -/
def stepsMapGet (m : List (Str × List (Str × Str))) (k : Str) :
    Option (List (Str × Str)) :=
  (m.find? (fun kv => kv.1 = k)).map (·.2)

/-- JS `String.prototype.trim` (the whitespace characters that occur in
workflow templates). -/
def jsTrim (s : Str) : Str :=
  ((s.dropWhile isWsCh).reverse.dropWhile isWsCh).reverse

/-- JS `String.prototype.split('.')`. -/
def splitDot : Str → List Str
  | [] => [[]]
  | x :: r =>
    let ps := splitDot r
    if x = '.' then [] :: ps
    else
      match ps with
      | p :: t => (x :: p) :: t
      | [] => [[x]]

/-- `Array.prototype.join('.')`. -/
def joinDot : List Str → Str
  | [] => []
  | [x] => x
  | x :: y :: t => x ++ '.' :: joinDot (y :: t)

/-- All matches of `/\{\{([^}]+)\}\}/g` in left-to-right order, as
(full match, capture) pairs: `\x7b\x7b`, one or more non-`\x7d`
characters, `\x7d\x7d`, non-overlapping, resuming after each match and
advancing one position on failure.  Fuel-structural; the wrapper feeds
the input length. -/
def findMatchesGo : Nat → Str → List (Str × Str)
  | 0, _ => []
  | f + 1, s =>
    match s with
    | [] => []
    | c :: rest =>
      if c = '{' then
        match rest with
        | '{' :: rest2 =>
          let inner := rest2.takeWhile (fun x => x ≠ '}')
          let after := rest2.drop inner.length
          match after with
          | '}' :: '}' :: after2 =>
            if inner.isEmpty then findMatchesGo f rest
            else ('{' :: '{' :: (inner ++ ['}', '}']), inner) :: findMatchesGo f after2
          | _ => findMatchesGo f rest
        | _ => findMatchesGo f rest
      else findMatchesGo f rest

/-- `[...prompt.matchAll(/\{\{([^}]+)\}\}/g)]`. -/
def findMatches (s : Str) : List (Str × Str) := findMatchesGo s.length s

/-- ECMAScript `GetSubstitution` for a string pattern (no capture
groups): `$$` is a dollar, `$&` the matched text, a dollar followed by a
backquote the text before the match, a dollar followed by a straight
quote the text after it; everything else (including `$` with a digit,
as there are no capture groups) is literal. -/
def getSubstitution (matched before after : Str) : Str → Str
  | [] => []
  | c :: t =>
    if c = '$' then
      match t with
      | [] => [c]
      | c2 :: t2 =>
        if c2 = '$' then '$' :: getSubstitution matched before after t2
        else if c2 = '&' then matched ++ getSubstitution matched before after t2
        else if c2 = Char.ofNat 96 then before ++ getSubstitution matched before after t2
        else if c2 = Char.ofNat 39 then after ++ getSubstitution matched before after t2
        else '$' :: c2 :: getSubstitution matched before after t2
    else c :: getSubstitution matched before after t

/-- Index of the first occurrence of `pat` in `s`. -/
def firstOccurIdx (s pat : Str) : Option Nat :=
  if pat.isPrefixOf s then some 0
  else
    match s with
    | [] => none
    | _ :: t => (firstOccurIdx t pat).map (· + 1)

/-- JS `s.replace(pat, rep)` with a string pattern: replace the first
occurrence of `pat`, passing the replacement through
`GetSubstitution`. -/
def jsReplace (s pat rep : Str) : Str :=
  match firstOccurIdx s pat with
  | none => s
  | some i =>
    s.take i ++ getSubstitution pat (s.take i) (s.drop (i + pat.length)) rep ++
      s.drop (i + pat.length)

/-- Declared output type of a workflow step output. -/
inductive WorkflowOutputType
  | string
  | file
deriving DecidableEq, Repr

/-- A declared step output (`WorkflowOutput`). -/
structure WorkflowOutput where
  name : Str
  description : Str := []
  type : WorkflowOutputType
  filename : Option Str := none
deriving DecidableEq, Repr

/-- A workflow agent step (`WorkflowAgentStep`): id, display name,
prompt template and declared outputs (`step.outputs || []` makes an
absent list empty). -/
structure WorkflowAgentStep where
  id : Str
  name : Str
  prompt : Str
  outputs : List WorkflowOutput := []
deriving DecidableEq, Repr

/-- The observable state of a path on disk: absent, present but failing
to read, or readable with the given text content. -/
inductive FileState
  | missing
  | unreadable (err : Str)
  | readable (content : Str)
deriving DecidableEq, Repr

/-- `Runner.loadValueByType(value, type, warnings)` (runner.ts lines
597-621): file-typed values are read from disk (`existsSync` then
`readFileSync`), falling back to the path itself with a warning when the
file is absent or unreadable; string-typed values pass through. -/
def loadValueByType (fs : Str → FileState) (value : Str)
    (type : WorkflowOutputType) : Str × List Str :=
  match type with
  | .file =>
    match fs value with
    | .readable content => (content, [])
    | .unreadable err =>
      (value, [strOf "Could not read file '" ++ value ++ strOf "': " ++ err])
    | .missing =>
      (value, [strOf "File '" ++ value ++ strOf "' does not exist"])
  | .string => (value, [])

/-- The resolution of one placeholder capture in `Runner.prompt`
(runner.ts lines 720-779, the loop body before the replacement): parse
the dot path, look up inputs or prior step outputs (loading file-typed
values through `loadValueByType`), and return the replacement value, if
any, together with the warnings produced. -/
def resolvePlaceholder (workflowSteps : List WorkflowAgentStep)
    (inputs : List (Str × Str)) (stepsOutput : List (Str × List (Str × Str)))
    (fs : Str → FileState) (placeholder : Str) : Option Str × List Str :=
  let parts := splitDot placeholder
  if parts.head? = some (strOf "inputs") ∧ parts.length = 2 then
    let inputName := joinDot (parts.drop 1)
    match mapGet inputs inputName with
    | some v => (some v, [])
    | none => (none, [strOf "Input '" ++ inputName ++ strOf "' not provided"])
  else if parts.head? = some (strOf "steps") ∧ parts.length = 4 ∧
      parts.get? 2 = some (strOf "outputs") then
    let stepId := (parts.get? 1).getD []
    let outputName := joinDot (parts.drop 3)
    match stepsMapGet stepsOutput stepId with
    | none =>
      (none, [strOf "Step '" ++ stepId ++ strOf "' has not been executed yet"])
    | some stepOutputs =>
      if mapHas stepOutputs outputName then
        let outputValue := jsOrStr (mapGet stepOutputs outputName) []
        let stepDef := workflowSteps.find? (fun s => s.id = stepId)
        let outputDef := stepDef.bind
          (fun sd => sd.outputs.find? (fun o => o.name = outputName))
        match outputDef with
        | none =>
          (none, [strOf "The output '" ++ outputName ++
            strOf "' definition in step '" ++ stepId ++ strOf "' is missing"])
        | some od =>
          let loaded := loadValueByType fs outputValue od.type
          (some loaded.1, loaded.2)
      else
        (none, [strOf "Output '" ++ outputName ++ strOf "' not found in step '" ++
          stepId ++ strOf "'"])
  else
    (none, [strOf "Invalid placeholder format: '" ++ placeholder ++ strOf "'"])

/-- `Runner.generateOutputInstructions()` (runner.ts lines 626-702): the
instruction block appended after placeholder resolution (empty when the
step declares no outputs). -/
def generateOutputInstructions (tool : Str) (stepOutputs : List WorkflowOutput) :
    Str :=
  if stepOutputs.isEmpty then []
  else
    let stringOutputs := stepOutputs.filter (fun o => o.type = .string)
    let fileOutputs := stepOutputs.filter (fun o => o.type = .file)
    let base := strOf "\n\n## OUTPUT REQUIREMENTS\n\n" ++
      strOf "You MUST provide your response in the exact format specified below:\n\n"
    let stringPart :=
      if stringOutputs.isEmpty then []
      else
        strOf "### JSON Response\n\n" ++
        strOf "Return a JSON object with the following structure:\n\n" ++
        strOf "```json\n\x7b\n" ++
        (stringOutputs.enum.flatMap (fun iv =>
          strOf "  \"" ++ iv.2.name ++ strOf "\": \"your_" ++ lowerStr iv.2.name ++
            strOf "_value_here\"" ++
            (if iv.1 < stringOutputs.length - 1 then [','] else []) ++ ['\n'])) ++
        strOf "\x7d\n```\n\n" ++
        strOf "Where:\n" ++
        (stringOutputs.flatMap (fun o =>
          strOf "- `" ++ o.name ++ strOf "`: " ++ o.description ++ ['\n'])) ++
        ['\n']
    let filePart :=
      if fileOutputs.isEmpty then []
      else
        strOf "### File Creation\n\n" ++
        strOf "You MUST create the following files with the exact content needed:\n\n" ++
        (fileOutputs.flatMap (fun o =>
          strOf "- **" ++ o.name ++ strOf "**: " ++ o.description ++ ['\n'] ++
          strOf "  - Create this file in the current working directory\n" ++
          (if tool = strOf "gemini" ∨ tool = strOf "qwen" then
            strOf "  - When creating the file, call the write_file tool using an absolute path based on current directory. THIS IS MANDATORY\n"
          else []) ++
          strOf "  - Filename: `" ++ (o.filename.getD (strOf "undefined")) ++
            strOf "`\n\n")) ++
        strOf "IMPORTANT: All files must be created with appropriate content. Do not create empty or placeholder files.\n\n"
    let combinedPart :=
      if stringOutputs.isEmpty ∨ fileOutputs.isEmpty then []
      else
        strOf "### Combined Response Format\n\n" ++
        strOf "1. First, create all required files as specified above\n" ++
        strOf "2. Then, provide the JSON response with the string outputs\n" ++
        strOf "3. Make sure all files are created before ending your response\n\n"
    base ++ stringPart ++ filePart ++ combinedPart ++
      strOf "**CRITICAL**: Follow these output requirements exactly. " ++
      strOf "Your response will be automatically parsed, so any deviation from the specified format will cause errors.\n"

/-- `Runner.prompt()` (runner.ts lines 714-801): iterate over all
placeholder matches, resolve each occurrence independently, substitute
resolved values into the first remaining occurrence of the matched token
via `String.prototype.replace`, leave unresolved tokens untouched, then
append the output instruction block.  Returns the final prompt together
with the accumulated warnings (the source prints them; it never fails
the step on them). -/
def promptResolve (step : WorkflowAgentStep) (workflowSteps : List WorkflowAgentStep)
    (inputs : List (Str × Str)) (stepsOutput : List (Str × List (Str × Str)))
    (fs : Str → FileState) (tool : Str) : Str × List Str :=
  let allMatches := findMatches step.prompt
  let folded := allMatches.foldl
    (fun (acc : Str × List Str) m =>
      let resolved := resolvePlaceholder workflowSteps inputs stepsOutput fs
        (jsTrim m.2)
      let next := match resolved.1 with
        | some v => jsReplace acc.1 m.1 v
        | none => acc.1
      (next, acc.2 ++ resolved.2))
    (step.prompt, [])
  (folded.1 ++ generateOutputInstructions tool step.outputs, folded.2)

/-! ## Response parsing and the subprocess run (`Runner.run` and friends)

`parseStepOutputs` / `extractStringOutputs` / `extractFileOutputs`
(runner.ts lines 385-585) manipulate JS values produced by `JSON.parse`
of agent output.  A possibly-`undefined` JS value is an `Option JVal`
(`none` is `undefined`); the `null` that `jsonData` starts as, and that
`JSON.parse` may return, is collapsed into the same unset state, which
JS cannot distinguish either (`jsonData == null`). -/

/-- JS truthiness of a JSON value. -/
def jsTruthy : JVal → Bool
  | .null => false
  | .bool b => b
  | .num i => i ≠ 0
  | .str s => !s.isEmpty
  | .arr _ => true
  | .obj _ => true

/-- `typeof v === 'object'` for a non-`undefined` value: objects and
arrays (`null` is collapsed away before this test is reached). -/
def jsTypeofObject : JVal → Bool
  | .arr _ => true
  | .obj _ => true
  | _ => false

/-- JS property access `v[k]` for an identifier-shaped key: a field of
an object, `undefined` otherwise (primitives and arrays have no such
own property). -/
def jvalField (v : JVal) (k : Str) : Option JVal :=
  match v with
  | .obj ms => (ms.find? (fun kv => kv.1 = k)).map (·.2)
  | _ => none

/-- JS `a || b` over possibly-undefined JS values. -/
def jsOrVal (a b : Option JVal) : Option JVal :=
  match a with
  | some v => if jsTruthy v then some v else b
  | none => b

mutual
/-- JS `String(v)` coercion of a JSON value (`Array.prototype.toString`
joins elements with commas, rendering `null` holes as empty). -/
def jsToStr : JVal → Str
  | .null => strOf "null"
  | .bool true => strOf "true"
  | .bool false => strOf "false"
  | .num i => intChars i
  | .str s => s
  | .arr xs => jsToStrList xs
  | .obj _ => strOf "[object Object]"
/-- Comma-joined element coercion for arrays. -/
def jsToStrList : List JVal → Str
  | [] => []
  | [x] => jsToStrElem x
  | x :: y :: t => jsToStrElem x ++ ',' :: jsToStrList (y :: t)
/-- One array element as `join(',')` renders it (`null` becomes
empty). -/
def jsToStrElem : JVal → Str
  | .null => []
  | .bool true => strOf "true"
  | .bool false => strOf "false"
  | .num i => intChars i
  | .str s => s
  | .arr xs => jsToStrList xs
  | .obj _ => strOf "[object Object]"
end

/-- `String(v)` for a possibly-undefined value. -/
def jsToStrU : Option JVal → Str
  | some v => jsToStr v
  | none => strOf "undefined"

/-- The first-match capture of `/```json\s*([\s\S]*?)\s*```/` in `s`: the
text between the first occurrence of the json fence opener and the first
closing fence after it, with adjacent whitespace absorbed by the
`\s*`s.  (If the first fence opener has no closing fence after it, no
later opener can match either, since an opener contains a closing
fence.) -/
def jsonBlockCapture (s : Str) : Option Str :=
  match firstOccurIdx s (strOf "```json") with
  | none => none
  | some i =>
    let rest := s.drop (i + 7)
    match firstOccurIdx rest (strOf "```") with
    | none => none
    | some j => some (jsTrim (rest.take j))

/-- `JSON.parse` as `extractStringOutputs` uses it for `jsonData`: a
result of JS `null` is indistinguishable from the initial `null`, so it
collapses to `none`. -/
def jsonParseCollapsed (s : Str) : Option JVal :=
  match jsonParse s with
  | some .null => none
  | x => x

/-- The `jsonData` recovery of `Runner.extractStringOutputs` for a
string response (runner.ts lines 481-502): parse the whole content,
else look for a fenced json block and parse its capture. -/
def recoverJsonData (s : Str) : Option JVal :=
  match jsonParseCollapsed s with
  | some v => some v
  | none =>
    match jsonBlockCapture s with
    | some cap => jsonParseCollapsed cap
    | none => none

/-- The value computed for one declared output by the loop body of
`Runner.extractStringOutputs` (runner.ts lines 505-527): with a truthy
object `jsonData`, the field of that name (stringified by `String()`)
when present and `[Not found in response]` when `undefined`; without a
recovered JSON object, the literal `[Could not extract from
response]`. -/
def extractedValue (jsonData : Option JVal) (name : Str) : Str :=
  let objCase := match jsonData with
    | some v => jsTruthy v && jsTypeofObject v
    | none => false
  let value : Option JVal :=
    if objCase then jvalField (jsonData.getD .null) name
    else some (.str (strOf "[Could not extract from response]"))
  match value with
  | some v => jsToStr v
  | none => strOf "[Not found in response]"

/-- The per-output extraction loop of `Runner.extractStringOutputs`
(runner.ts lines 504-528): set every declared output name to its
extracted value. -/
def extractLoop (jsonData : Option JVal) (stringOutputs : List WorkflowOutput)
    (outputs : List (Str × Str)) : List (Str × Str) :=
  stringOutputs.foldl
    (fun outs o => mapSet outs o.name (extractedValue jsonData o.name))
    outputs

/-- `Runner.extractStringOutputs(responseContent, stringOutputs,
outputs)` (runner.ts lines 475-529).  `JSON.parse` coerces its argument
to a string and its own failure is caught; but when no JSON was
recovered, the fenced-block search calls `.match` on `responseContent`,
which throws a `TypeError` for a non-string value - that exception
escapes to `parseStepOutputs`. -/
def extractStringOutputs (responseContent : Option JVal)
    (stringOutputs : List WorkflowOutput) (outputs : List (Str × Str)) :
    Except Str (List (Str × Str)) :=
  match jsonParseCollapsed (jsToStrU responseContent) with
  | some jd => .ok (extractLoop (some jd) stringOutputs outputs)
  | none =>
    match responseContent with
    | some (.str s) =>
      let jd := match jsonBlockCapture s with
        | some cap => jsonParseCollapsed cap
        | none => none
      .ok (extractLoop jd stringOutputs outputs)
    | _ => .error (strOf "responseContent.match is not a function")

/-- `path.basename`: the last path segment. -/
def basenameOf (p : Str) : Str := (p.reverse.takeWhile (fun c => c ≠ '/')).reverse

/-- `path.join` of a directory and a file name. -/
def joinPath (dir file : Str) : Str := dir ++ '/' :: file

/-- `Runner.extractFileOutputs(fileOutputs, outputs, outputDir)`
(runner.ts lines 534-585): store the (possibly relocated) path under the
output name and the file text under `<name>_content`; a missing filename
declaration, an absent file, or a read/copy failure degrade to literal
placeholder values, never to an exception. -/
def extractFileOutputs (fs : Str → FileState) (fileOutputs : List WorkflowOutput)
    (outputs : List (Str × Str)) (outputDir : Option Str) : List (Str × Str) :=
  fileOutputs.foldl
    (fun outs o =>
      match o.filename with
      | none => mapSet outs o.name (strOf "[Missing filename]")
      | some fn =>
        match fs fn with
        | .missing => mapSet outs o.name (strOf "[File not created]")
        | .unreadable _ => mapSet outs o.name (strOf "[Could not read file]")
        | .readable content =>
          let filePath := match outputDir with
            | some dir => joinPath dir (basenameOf fn)
            | none => fn
          mapSet (mapSet outs o.name filePath) (o.name ++ strOf "_content") content)
    outputs

/-- `Runner.toolUsesJsonFormat()` (runner.ts lines 462-470). -/
def toolUsesJsonFormat (tool : Str) : Bool :=
  tool = strOf "claude" || tool = strOf "gemini"

/-- The JSON-envelope content extraction of `Runner.parseStepOutputs`
(runner.ts lines 398-427): for JSON-format tools, parse the raw output
and take the first truthy candidate field per tool; a parse failure -
or the `TypeError` of reading a property of a `null` parse result - is
caught and degrades to the raw text. -/
def envelopeContent (tool : Str) (rawOutput : Str) : Option JVal :=
  if toolUsesJsonFormat tool then
    match jsonParse rawOutput with
    | none => some (.str rawOutput)
    | some .null => some (.str rawOutput)
    | some v =>
      if tool = strOf "claude" then
        jsOrVal (jvalField v (strOf "result"))
          (jsOrVal (jvalField v (strOf "content")) (jvalField v (strOf "message")))
      else if tool = strOf "gemini" then
        jsOrVal (jvalField v (strOf "response"))
          (jsOrVal (jvalField v (strOf "content")) (jvalField v (strOf "text")))
      else some (.str rawOutput)
  else some (.str rawOutput)

/-- `Runner.parseStepOutputs(rawOutput, outputs, outputDir)` (runner.ts
lines 385-457): envelope extraction, then string outputs, then file
outputs; any exception from the extraction machinery is caught and
reported as `success: false` with a `Failed to parse outputs:` message
(usage-statistics extraction, which affects only the reported stats, is
not modelled).  Returns (success, error, outputs). -/
def parseStepOutputs (tool : Str) (fs : Str → FileState)
    (step : WorkflowAgentStep) (rawOutput : Str) (outputs : List (Str × Str))
    (outputDir : Option Str) : Bool × Option Str × List (Str × Str) :=
  let responseContent := envelopeContent tool rawOutput
  let stringOutputs := step.outputs.filter (fun o => o.type = .string)
  let fileOutputs := step.outputs.filter (fun o => o.type = .file)
  let afterStrings : Except Str (List (Str × Str)) :=
    if stringOutputs.isEmpty then .ok outputs
    else extractStringOutputs responseContent stringOutputs outputs
  match afterStrings with
  | .error e => (false, some (strOf "Failed to parse outputs: " ++ e), outputs)
  | .ok outs1 =>
    let outs2 :=
      if fileOutputs.isEmpty then outs1
      else extractFileOutputs fs fileOutputs outs1 outputDir
    (true, none, outs2)

/-- The result of awaiting the launched agent process (the fields of
the `launch` result that `Runner.run` reads). -/
structure LaunchResult where
  exitCode : Option Int
  stdout : Str := []
  stderr : Str := []
  timedOut : Bool := false
  isCanceled : Bool := false
deriving DecidableEq, Repr

/-- A classified agent error as `Runner.run` consumes it: message,
machine code, retryability, and the two `instanceof` distinctions the
runner makes (credit exhaustion for the result's `errorCode`,
authentication for display). -/
structure AgentErr where
  message : Str
  code : Str
  isRetryable : Bool
  isCredit : Bool := false
  isAuth : Bool := false
deriving DecidableEq, Repr

/-- Modelled from the spec: `AuthenticationError` lives in
`lib/errors.ts`, which is not under src/; per the spec's error taxonomy
it is not retryable, and `Runner.run` constructs it with this fixed
message.  The machine code string is not observable in any claim. -/
def authenticationError : AgentErr :=
  { message := strOf "Agent requires authentication - process was terminated"
  , code := strOf "AUTHENTICATION_REQUIRED"
  , isRetryable := false
  , isAuth := true }

/-- Modelled from the spec: `TimeoutError` lives in `lib/errors.ts`, not
under src/; per the spec it carries the configured limit and is not
retryable.  `Runner.run` constructs it with this message. -/
def timeoutError (stepName : Str) (timeoutSecs : Int) : AgentErr :=
  { message := strOf "Step '" ++ stepName ++ strOf "' exceeded timeout of " ++
      intChars timeoutSecs ++ strOf "s"
  , code := strOf "TIMEOUT"
  , isRetryable := false }

/-- A successful recovery from `Agent.recoverFromError` (the
`tryRecoverFromAgentError` outcome: `none` covers a missing hook, a
hook returning nothing, and a hook that threw). -/
structure RecoveryResult where
  rawOutput : Str
  notice : Option Str := none
deriving DecidableEq, Repr

/-- The outcome decision of `Runner.run` (runner.ts lines 219-269):
exactly how the raw output or the classified error is chosen.
`authDetected` is the flag set by the stderr authentication detector;
`classify` is `parseAgentError` from `lib/errors.ts` (not under src/),
whose result shape alone matters here, so it is a parameter. -/
def stepOutcome (result : LaunchResult) (authDetected : Bool)
    (recovery : Option RecoveryResult)
    (classify : Str → Str → Option Int → AgentErr)
    (stepName : Str) (timeoutSecs : Int) : Option Str × Option AgentErr :=
  if authDetected then (none, some authenticationError)
  else if result.exitCode = some 0 then (some result.stdout, none)
  else
    match recovery with
    | some rr => (some rr.rawOutput, none)
    | none =>
      if result.timedOut then (none, some (timeoutError stepName timeoutSecs))
      else if result.isCanceled then (none, some authenticationError)
      else (none, some (classify result.stderr result.stdout result.exitCode))

/-- `String(boolean)`. -/
def boolStr (b : Bool) : Str := if b then strOf "true" else strOf "false"

/-- The step result `Runner.run` resolves with (wall-clock duration and
usage statistics, which no claim concerns, are not modelled). -/
structure RunnerStepResult where
  id : Str
  success : Bool
  error : Option Str
  errorCode : Option Str
  outputs : List (Str × Str)
deriving DecidableEq, Repr

/-- `Runner.run(output?)` (runner.ts lines 144-348): resolve the prompt,
launch the agent (whose awaited result, the authentication flag and the
recovery outcome are parameters), then either store `raw_output` /
`input_prompt` and parse the declared outputs (throwing - `.error` -
when the parse machinery itself failed), or store the classified
error's `error` / `error_code` / `error_retryable` entries.  The
result's `success` is the absence of an `error` key, and `errorCode` is
set only for a credit-exhaustion error. -/
def runnerRun (step : WorkflowAgentStep) (workflowSteps : List WorkflowAgentStep)
    (inputs : List (Str × Str)) (stepsOutput : List (Str × List (Str × Str)))
    (tool : Str) (fs : Str → FileState) (outputDir : Option Str)
    (result : LaunchResult) (authDetected : Bool)
    (recovery : Option RecoveryResult)
    (classify : Str → Str → Option Int → AgentErr) (timeoutSecs : Int) :
    Except Str RunnerStepResult :=
  let finalPrompt := (promptResolve step workflowSteps inputs stepsOutput fs tool).1
  let outcome := stepOutcome result authDetected recovery classify step.name timeoutSecs
  let afterSuccess : Except Str (List (Str × Str)) :=
    match outcome.1 with
    | none => .ok []
    | some rawOutput =>
      let outs := mapSet (mapSet [] (strOf "raw_output") rawOutput)
        (strOf "input_prompt") finalPrompt
      let parsed := parseStepOutputs tool fs step rawOutput outs outputDir
      if parsed.1 then .ok parsed.2.2
      else .error (jsOrStr parsed.2.1 (strOf "Failed to parse step outputs"))
  match afterSuccess with
  | .error e => .error e
  | .ok outs =>
    let outs := match outcome.2 with
      | none => outs
      | some ae =>
        mapSet (mapSet (mapSet outs (strOf "error") ae.message)
          (strOf "error_code") ae.code)
          (strOf "error_retryable") (boolStr ae.isRetryable)
    .ok
      { id := step.id
      , success := !(mapHas outs (strOf "error"))
      , error := mapGet outs (strOf "error")
      , errorCode := match outcome.2 with
          | some ae => if ae.isCredit then some ae.code else none
          | none => none
      , outputs := outs }

/-! ## Auxiliary definitions for the verification

`numDelim` states when a suffix cannot extend a rendered number (used by
the codec round-trip); the `size*` functions measure the parser fuel a
value needs; the remaining definitions are the concrete instances that
witnesses and counterexamples evaluate. -/

/-- A suffix that cannot extend a rendered integer: empty, or starting
with a character that is neither a digit nor `.`/`e`/`E`. -/
def numDelim : Str → Bool
  | [] => true
  | c :: _ => !(isDigitCh c || c = '.' || c = 'e' || c = 'E')

mutual
/-- Parser fuel needed by a value. -/
def sizeV : JVal → Nat
  | .arr (x :: xs) => 1 + sizeItems (x :: xs)
  | .obj (m :: ms) => 1 + sizeMembers (m :: ms)
  | _ => 1
/-- Parser fuel needed by an element list. -/
def sizeItems : List JVal → Nat
  | [] => 0
  | x :: xs => 1 + sizeV x + sizeItems xs
/-- Parser fuel needed by a member list. -/
def sizeMembers : List (Str × JVal) → Nat
  | [] => 0
  | m :: ms => 1 + sizeV m.2 + sizeMembers ms
end

/-- A file system with no files. -/
def fsEmpty : Str → FileState := fun _ => .missing

/-- A step whose template holds one `inputs` placeholder and declares no
outputs. -/
def onePlaceholderStep : WorkflowAgentStep :=
  { id := strOf "s", name := strOf "S", prompt := strOf "\x7b\x7binputs.x\x7d\x7d" }

/-- A step whose template holds the same `inputs` placeholder twice. -/
def twoPlaceholderStep : WorkflowAgentStep :=
  { id := strOf "s", name := strOf "S"
  , prompt := strOf "\x7b\x7binputs.x\x7d\x7d and \x7b\x7binputs.x\x7d\x7d" }

/-- A prior step declaring one file-typed output `f`. -/
def filePrevStep : WorkflowAgentStep :=
  { id := strOf "s1", name := strOf "Prev", prompt := []
  , outputs := [{ name := strOf "f", type := .file, filename := some (strOf "f.md") }] }

/-- A step whose template references the prior step's file-typed
output. -/
def fileRefStep : WorkflowAgentStep :=
  { id := strOf "s2", name := strOf "Ref"
  , prompt := strOf "see \x7b\x7bsteps.s1.outputs.f\x7d\x7d!" }

/-- A file system holding `hello` at the recorded output path. -/
def helloFs : Str → FileState :=
  fun p => if p = strOf "/tmp/f.md" then .readable (strOf "hello") else .missing

/-- A plain step used for concrete runner executions. -/
def plainStep : WorkflowAgentStep :=
  { id := strOf "s", name := strOf "S", prompt := strOf "do it" }

/-- One declared string output named `outcome`. -/
def outcomeOutput : WorkflowOutput :=
  { name := strOf "outcome", type := .string }

/-- A concrete current-version task document. -/
def sampleDoc : JVal :=
  .obj
    [ (strOf "id", .num 1)
    , (strOf "uuid", .str (strOf "u-1"))
    , (strOf "title", .str (strOf "A \"quoted\" title\n"))
    , (strOf "inputs", .obj [])
    , (strOf "status", .str (strOf "NEW"))
    , (strOf "iterations", .num 1)
    , (strOf "exitCode", .num (-1))
    , (strOf "tags", .arr [.str (strOf "x"), .null, .bool true])
    , (strOf "version", .str (strOf "1.5")) ]

/-! ## Theorems

Helper lemmas first, then, per claim, one theorem (with its witness or
counterexample where required). -/


/-! ## Theorems

Helper lemmas first, then one theorem per claim (with its witness or
counterexample where required). -/

theorem setStatus_status (d : TaskDescription) (s : TaskStatus)
    (m : Option StatusMetadata) (now : Str) : (setStatus d s m now).status = s := by
  cases s <;> simp only [setStatus] <;> (repeat' split) <;>
    first | rfl | (constructor <;> rfl) | trivial

theorem setStatus_keeps_restart_fields (d : TaskDescription) (s : TaskStatus)
    (m : Option StatusMetadata) (now : Str) :
    (setStatus d s m now).restartCount = d.restartCount ∧
    (setStatus d s m now).lastRestartAt = d.lastRestartAt := by
  cases s <;> simp only [setStatus] <;> (repeat' split) <;>
    first | rfl | (constructor <;> rfl) | trivial

theorem setStatus_error_of_truthy (d : TaskDescription)
    (m : Option StatusMetadata) (now e : Str)
    (hm : m.bind (·.error) = some e) (he : e.isEmpty = false) :
    (setStatus d .FAILED m now).error = some e ∧
    (setStatus d .PAUSED_CREDITS m now).error = some e := by
  constructor <;> (simp only [setStatus, hm, strFalsy, he]; rfl)
/-- C1: `updateStatusFromIteration` maps the latest iteration's status
document to the task status by the fixed table - `completed` to
`COMPLETED`, `failed` to `FAILED` (carrying a truthy iteration error),
`credit_exhausted` to `PAUSED_CREDITS` (carrying a truthy iteration
error), `running` to `ITERATING`, anything else to `IN_PROGRESS` -
except that a task already `MERGED` or `PUSHED` is left entirely
unchanged when the derived status would be `COMPLETED`. -/
theorem C1_statusFromIteration_table (d : TaskDescription)
    (st : IterationStatusDoc) (now : Str) :
    (st.status = strOf "completed" →
      ((d.status = .MERGED ∨ d.status = .PUSHED) →
        updateStatusFromIteration d (some st) now = d) ∧
      (¬(d.status = .MERGED ∨ d.status = .PUSHED) →
        (updateStatusFromIteration d (some st) now).status = .COMPLETED)) ∧
    (st.status = strOf "failed" →
      (updateStatusFromIteration d (some st) now).status = .FAILED ∧
      ∀ e, st.error = some e → e.isEmpty = false →
        (updateStatusFromIteration d (some st) now).error = some e) ∧
    (st.status = strOf "credit_exhausted" →
      (updateStatusFromIteration d (some st) now).status = .PAUSED_CREDITS ∧
      ∀ e, st.error = some e → e.isEmpty = false →
        (updateStatusFromIteration d (some st) now).error = some e) ∧
    (st.status = strOf "running" →
      (updateStatusFromIteration d (some st) now).status = .ITERATING) ∧
    (st.status ≠ strOf "completed" → st.status ≠ strOf "failed" →
      st.status ≠ strOf "credit_exhausted" → st.status ≠ strOf "running" →
      (updateStatusFromIteration d (some st) now).status = .IN_PROGRESS) := by
  refine ⟨?_, ?_, ?_, ?_, ?_⟩
  · intro h
    have hred : updateStatusFromIteration d (some st) now =
        if d.status = .MERGED ∨ d.status = .PUSHED then d
        else setStatus d .COMPLETED
          (some { timestamp := st.completedAt, error := none }) now := by
      simp +decide [updateStatusFromIteration, h]
    constructor
    · intro hm
      rw [hred, if_pos hm]
    · intro hm
      rw [hred, if_neg hm]
      exact setStatus_status ..
  · intro h
    have hred : updateStatusFromIteration d (some st) now =
        setStatus d .FAILED
          (some { timestamp := st.completedAt, error := st.error }) now := by
      simp +decide [updateStatusFromIteration, h]
    refine ⟨by rw [hred]; exact setStatus_status .., ?_⟩
    intro e he hne
    rw [hred]
    exact (setStatus_error_of_truthy d _ now e (by simp [he]) hne).1
  · intro h
    have hred : updateStatusFromIteration d (some st) now =
        setStatus d .PAUSED_CREDITS
          (some { timestamp := st.completedAt, error := st.error }) now := by
      simp +decide [updateStatusFromIteration, h]
    refine ⟨by rw [hred]; exact setStatus_status .., ?_⟩
    intro e he hne
    rw [hred]
    exact (setStatus_error_of_truthy d _ now e (by simp [he]) hne).2
  · intro h
    have hred : updateStatusFromIteration d (some st) now =
        setStatus d .ITERATING
          (some { timestamp := st.updatedAt, error := none }) now := by
      simp +decide [updateStatusFromIteration, h]
    rw [hred]
    exact setStatus_status ..
  · intro h1 h2 h3 h4
    have hred : updateStatusFromIteration d (some st) now =
        setStatus d .IN_PROGRESS
          (some { timestamp := st.updatedAt, error := none }) now := by
      simp only [updateStatusFromIteration, if_neg h1, if_neg h2, if_neg h3, if_neg h4]
      simp
    rw [hred]
    exact setStatus_status ..

/-- Witness for C1: a `MERGED` task whose latest iteration reports
`completed` is left unchanged. -/
theorem C1_statusFromIteration_table_witness :
    updateStatusFromIteration
      { id := 1, status := .MERGED, createdAt := strOf "t0" }
      (some { status := strOf "completed" }) (strOf "t1") =
      { id := 1, status := .MERGED, createdAt := strOf "t0" } :=
  ((C1_statusFromIteration_table _ _ _).1 rfl).1 (Or.inl rfl)

/-- C10: the `MERGED`/`PUSHED` stickiness covers only a derived
`COMPLETED`: when the latest iteration reports `failed` (or
`credit_exhausted`), `updateStatusFromIteration` overwrites the terminal
status and the task becomes `FAILED` (or `PAUSED_CREDITS`). -/
theorem C10_terminal_overwritten_by_failure (d : TaskDescription)
    (st : IterationStatusDoc) (now : Str)
    (hterm : d.status = .MERGED ∨ d.status = .PUSHED) :
    (st.status = strOf "failed" →
      (updateStatusFromIteration d (some st) now).status = .FAILED) ∧
    (st.status = strOf "credit_exhausted" →
      (updateStatusFromIteration d (some st) now).status = .PAUSED_CREDITS) := by
  constructor
  · intro h
    have hred : updateStatusFromIteration d (some st) now =
        setStatus d .FAILED
          (some { timestamp := st.completedAt, error := st.error }) now := by
      simp +decide [updateStatusFromIteration, h]
    rw [hred]
    exact setStatus_status ..
  · intro h
    have hred : updateStatusFromIteration d (some st) now =
        setStatus d .PAUSED_CREDITS
          (some { timestamp := st.completedAt, error := st.error }) now := by
      simp +decide [updateStatusFromIteration, h]
    rw [hred]
    exact setStatus_status ..

/-- Witness for C10: a `MERGED` task whose latest iteration reports
`failed` becomes `FAILED`. -/
theorem C10_terminal_overwritten_by_failure_witness :
    (updateStatusFromIteration
      { id := 1, status := .MERGED, createdAt := strOf "t0" }
      (some { status := strOf "failed", error := some (strOf "boom") })
      (strOf "t1")).status = .FAILED :=
  (C10_terminal_overwritten_by_failure _ _ _ (Or.inl rfl)).1 rfl

/-- C7: `restart` on a `FAILED` task passes the restart command's
status guard, moves the task to `IN_PROGRESS`, increments the restart
counter by exactly one (an absent counter counting as zero) and records
the restart time; the guard rejects a task in `IN_PROGRESS`. -/
theorem C7_restart_semantics (d : TaskDescription) (ts now : Str)
    (hf : d.status = .FAILED) (hts : ts.isEmpty = false) :
    canRestart d.status = true ∧
    (restart d (some ts) now).status = .IN_PROGRESS ∧
    (restart d (some ts) now).restartCount = some (d.restartCount.getD 0 + 1) ∧
    (restart d (some ts) now).lastRestartAt = some ts ∧
    canRestart .IN_PROGRESS = false := by
  have hjs : jsOrStr (some ts) now = ts := by simp [jsOrStr, hts]
  have hbase : (restart d (some ts) now).restartCount =
      some ((match d.restartCount with
        | some n => if n = 0 then (0 : Int) else n
        | none => 0) + 1) := by
    simp only [restart, hjs]
    exact (setStatus_keeps_restart_fields ..).1
  refine ⟨by rw [hf]; rfl, ?_, ?_, ?_, by rfl⟩
  · simp only [restart, hjs]
    exact setStatus_status ..
  · rw [hbase]
    congr 1
    cases d.restartCount with
    | none => rfl
    | some n =>
      simp only [Option.getD]
      split
      · next h => rw [h]
      · rfl
  · simp only [restart, hjs]
    exact (setStatus_keeps_restart_fields ..).2

/-- Witness for C7: a concrete `FAILED` task restarts to `IN_PROGRESS`
with counter 1. -/
theorem C7_restart_semantics_witness :
    canRestart TaskStatus.FAILED = true ∧
    (restart { id := 1, status := .FAILED, createdAt := strOf "t0" }
      (some (strOf "t2")) (strOf "t3")).status = .IN_PROGRESS ∧
    (restart { id := 1, status := .FAILED, createdAt := strOf "t0" }
      (some (strOf "t2")) (strOf "t3")).restartCount = some 1 ∧
    (restart { id := 1, status := .FAILED, createdAt := strOf "t0" }
      (some (strOf "t2")) (strOf "t3")).lastRestartAt = some (strOf "t2") ∧
    canRestart .IN_PROGRESS = false :=
  C7_restart_semantics { id := 1, status := .FAILED, createdAt := strOf "t0" }
    (strOf "t2") (strOf "t3") rfl rfl

/-- C8: `setStatus` with `MERGED` or `PUSHED` assigns `completedAt` only
when it was previously unset (absent or empty, i.e. falsy); a
previously set completion timestamp is left unchanged. -/
theorem C8_completedAt_preserved (d : TaskDescription)
    (m : Option StatusMetadata) (now : Str) :
    (∀ c, d.completedAt = some c → c.isEmpty = false →
      (setStatus d .MERGED m now).completedAt = some c ∧
      (setStatus d .PUSHED m now).completedAt = some c) ∧
    (strFalsy d.completedAt = true →
      (setStatus d .MERGED m now).completedAt =
        some (jsOrStr (m.bind (·.timestamp)) now) ∧
      (setStatus d .PUSHED m now).completedAt =
        some (jsOrStr (m.bind (·.timestamp)) now)) := by
  constructor
  · intro c hc hne
    constructor <;> simp [setStatus, strFalsy, hc, hne]
  · intro hfal
    constructor <;> simp [setStatus, hfal]

/-- Witness for C8: a task completed at `t1`, then merged at `t2`,
keeps `completedAt = t1`; with `completedAt` unset it would be
assigned. -/
theorem C8_completedAt_preserved_witness :
    (setStatus
      { id := 1, status := .COMPLETED, createdAt := strOf "t0"
      , completedAt := some (strOf "t1") }
      .MERGED (some { timestamp := some (strOf "t2") }) (strOf "t3")).completedAt =
      some (strOf "t1") :=
  ((C8_completedAt_preserved _ _ _).1 (strOf "t1") rfl rfl).1

/-- C6: `isCreditExhaustedError` reports exhaustion exactly when the
combined message/stderr/stdout text, lower-cased, contains one of the
fixed pattern phrases (the listed phrases with `_`-or-whitespace word
separators, `429` covering HTTP 429); `null` and `undefined` report no
exhaustion, and each listed phrase as a plain message does. -/
theorem C6_credit_exhaustion_pattern (e : ErrVal) :
    (isCreditExhaustedError e = true ↔
      ∃ p ∈ creditPatternStrings, containsSub (lowerStr (errCombined e)) p = true) ∧
    isCreditExhaustedError .jsNull = false ∧
    isCreditExhaustedError .jsUndef = false ∧
    (∀ p ∈ [strOf "quota exceeded", strOf "credits exhausted",
        strOf "insufficient quota", strOf "usage limit", strOf "credit limit",
        strOf "out of credits", strOf "429", strOf "rate limit"],
      isCreditExhaustedError (.obj { message := some p }) = true) := by
  refine ⟨?_, by decide, by decide, by decide⟩
  simp only [isCreditExhaustedError, creditPatternTest, List.any_eq_true]

/-- Witness for C6: the phrase `quota exceeded` triggers the
detector. -/
theorem C6_credit_exhaustion_pattern_witness :
    isCreditExhaustedError (.obj { message := some (strOf "quota exceeded") }) = true :=
  (C6_credit_exhaustion_pattern
    (.obj { message := some (strOf "quota exceeded") })).2.2.2
    (strOf "quota exceeded") (by decide)

/-- C5: a `steps` placeholder whose referenced output is declared
`type: file` resolves to the file's content when readable - not to the
path - and falls back to the path string with a warning when the file
is missing or unreadable; end to end, `{{steps.s1.outputs.f}}` over a
readable file containing `hello` yields `see hello!`. -/
theorem C5_file_placeholder_content (fs : Str → FileState)
    (path content err : Str) (hpath : path.isEmpty = false) :
    (fs path = .readable content → loadValueByType fs path .file = (content, [])) ∧
    (fs path = .missing →
      loadValueByType fs path .file =
        (path, [strOf "File '" ++ path ++ strOf "' does not exist"])) ∧
    (fs path = .unreadable err →
      loadValueByType fs path .file =
        (path, [strOf "Could not read file '" ++ path ++ strOf "': " ++ err])) ∧
    (fs path = .readable content →
      resolvePlaceholder [filePrevStep] [] [(strOf "s1", [(strOf "f", path)])] fs
        (strOf "steps.s1.outputs.f") = (some content, [])) ∧
    promptResolve fileRefStep [filePrevStep, fileRefStep] []
      [(strOf "s1", [(strOf "f", strOf "/tmp/f.md")])] helloFs (strOf "codex") =
      (strOf "see hello!", []) ∧
    promptResolve fileRefStep [filePrevStep, fileRefStep] []
      [(strOf "s1", [(strOf "f", strOf "/tmp/f.md")])] fsEmpty (strOf "codex") =
      (strOf "see /tmp/f.md!", [strOf "File '/tmp/f.md' does not exist"]) := by
  refine ⟨?_, ?_, ?_, ?_, by decide, by decide⟩
  · intro h
    simp [loadValueByType, h]
  · intro h
    simp [loadValueByType, h]
  · intro h
    simp [loadValueByType, h]
  · intro h
    simp +decide [resolvePlaceholder, filePrevStep, stepsMapGet, mapHas, mapGet,
      jsOrStr, hpath, loadValueByType, h]

/-- Witness for C5: the readable case at the concrete file system. -/
theorem C5_file_placeholder_content_witness :
    resolvePlaceholder [filePrevStep] []
      [(strOf "s1", [(strOf "f", strOf "/tmp/f.md")])] helloFs
      (strOf "steps.s1.outputs.f") = (some (strOf "hello"), []) :=
  (C5_file_placeholder_content helloFs (strOf "/tmp/f.md") (strOf "hello")
    [] rfl).2.2.2.1 rfl

theorem getSubstitution_no_dollar (matched before after v : Str)
    (hd : '$' ∉ v) : getSubstitution matched before after v = v := by
  induction v with
  | nil => rfl
  | cons c t ih =>
    have hc : ¬(c = '$') := fun hh => hd (hh ▸ List.mem_cons_self ..)
    have ht : '$' ∉ t := fun hh => hd (List.mem_cons_of_mem _ hh)
    cases t with
    | nil => simp [getSubstitution, hc]
    | cons c2 t2 =>
      simp only [getSubstitution, hc, if_false, ite_false, if_neg hc]
      rw [ih ht]

theorem firstOccurIdx_at_clean_prefix (p pat s : Str) (c : Char)
    (hpat : pat.head? = some c) (hc : c ∉ p) :
    firstOccurIdx (p ++ pat ++ s) pat = some p.length := by
  obtain ⟨t, rfl⟩ : ∃ t, pat = c :: t := by
    cases pat with
    | nil => cases hpat
    | cons x xs => exact ⟨xs, by rw [Option.some.inj hpat]⟩
  induction p with
  | nil =>
    have hpre : (c :: t).isPrefixOf ((c :: t) ++ s) = true := by
      rw [List.isPrefixOf_iff_prefix]
      exact List.prefix_append _ _
    rw [List.nil_append, firstOccurIdx.eq_def, if_pos hpre]
    rfl
  | cons a p' ih =>
    have hca : ¬(c = a) := fun hh => hc (hh ▸ List.mem_cons_self ..)
    have hcp : c ∉ p' := fun hh => hc (List.mem_cons_of_mem _ hh)
    have hpre : (c :: t).isPrefixOf (a :: (p' ++ (c :: t) ++ s)) = false := by
      have hb : (c == a) = false := beq_eq_false_iff_ne.mpr hca
      simp only [List.isPrefixOf, hb, Bool.false_and]
    have step : firstOccurIdx ((a :: p') ++ (c :: t) ++ s) (c :: t) =
        (firstOccurIdx (p' ++ (c :: t) ++ s) (c :: t)).map (· + 1) := by
      show firstOccurIdx (a :: (p' ++ (c :: t) ++ s)) (c :: t) = _
      rw [firstOccurIdx.eq_def, if_neg (by simp only [hpre]; exact Bool.false_ne_true)]
    rw [step, ih hcp]
    rfl

theorem jsReplace_at_clean_prefix (p pat s rep : Str) (c : Char)
    (hpat : pat.head? = some c) (hc : c ∉ p) :
    jsReplace (p ++ pat ++ s) pat rep =
      p ++ getSubstitution pat p s rep ++ s := by
  have ht : (p ++ pat ++ s).take p.length = p := by
    rw [List.append_assoc]
    exact List.take_left ..
  have hd2 : (p ++ pat ++ s).drop (p.length + pat.length) = s := by
    rw [show p.length + pat.length = (p ++ pat).length by simp]
    exact List.drop_left ..
  simp only [jsReplace, firstOccurIdx_at_clean_prefix p pat s c hpat hc, ht, hd2]

/-- Counterexample for C4: resolving `\x7b\x7binputs.x\x7d\x7d` with the
input value `$&` does not place `$&` in the output - JS
`String.replace` interprets `$&` as the matched token, so the prompt
comes out as the token itself and the resolved value appears nowhere. -/
theorem C4_counterexample :
    (promptResolve onePlaceholderStep [] [(strOf "x", strOf "$&")] [] fsEmpty
      (strOf "codex")).1 = strOf "\x7b\x7binputs.x\x7d\x7d" ∧
    containsSub
      (promptResolve onePlaceholderStep [] [(strOf "x", strOf "$&")] [] fsEmpty
        (strOf "codex")).1 (strOf "$&") = false := by
  decide

/-- C4 (amended): replacement substitutes, per matched occurrence, the
first remaining occurrence of the token, passing the resolved value
through JS GetSubstitution dollar-escape semantics; a value free of `$`
is inserted verbatim, and (for values that do not re-introduce an
opening brace) a placeholder occurring twice is resolved and replaced
independently per occurrence. -/
theorem C4_literal_substitution (v : Str) (hd : '$' ∉ v) (hb : '{' ∉ v) :
    (∀ matched before after, getSubstitution matched before after v = v) ∧
    (promptResolve twoPlaceholderStep [] [(strOf "x", v)] [] fsEmpty
      (strOf "codex")).1 = v ++ strOf " and " ++ v := by
  refine ⟨fun matched before after => getSubstitution_no_dollar _ _ _ v hd, ?_⟩
  have htok : findMatches twoPlaceholderStep.prompt =
      [(strOf "\x7b\x7binputs.x\x7d\x7d", strOf "inputs.x"),
       (strOf "\x7b\x7binputs.x\x7d\x7d", strOf "inputs.x")] := by decide
  have hres : resolvePlaceholder [] [(strOf "x", v)] [] fsEmpty
      (jsTrim (strOf "inputs.x")) = (some v, []) := by
    simp +decide [resolvePlaceholder, jsTrim, mapGet]
  have e1 : jsReplace twoPlaceholderStep.prompt (strOf "\x7b\x7binputs.x\x7d\x7d") v =
      v ++ (strOf " and " ++ strOf "\x7b\x7binputs.x\x7d\x7d") := by
    have hshape : twoPlaceholderStep.prompt =
        ([] : Str) ++ strOf "\x7b\x7binputs.x\x7d\x7d" ++
          (strOf " and " ++ strOf "\x7b\x7binputs.x\x7d\x7d") := by decide
    rw [hshape, jsReplace_at_clean_prefix _ _ _ _ '{' (by decide) (by decide),
      getSubstitution_no_dollar _ _ _ v hd, List.nil_append]
  have e2 : jsReplace (v ++ (strOf " and " ++ strOf "\x7b\x7binputs.x\x7d\x7d"))
      (strOf "\x7b\x7binputs.x\x7d\x7d") v = v ++ strOf " and " ++ v := by
    have hshape : v ++ (strOf " and " ++ strOf "\x7b\x7binputs.x\x7d\x7d") =
        (v ++ strOf " and ") ++ strOf "\x7b\x7binputs.x\x7d\x7d" ++ ([] : Str) := by
      simp
    have hclean : '{' ∉ v ++ strOf " and " := by
      intro hm
      rcases List.mem_append.mp hm with hm | hm
      · exact hb hm
      · exact absurd hm (by decide)
    rw [hshape, jsReplace_at_clean_prefix _ _ _ _ '{' (by decide) hclean,
      getSubstitution_no_dollar _ _ _ v hd, List.append_nil, List.append_assoc]
  simp only [promptResolve, htok, List.foldl_cons, List.foldl_nil, hres, e1, e2]
  have hinstr : generateOutputInstructions (strOf "codex") twoPlaceholderStep.outputs = [] := by
    decide
  rw [hinstr, List.append_nil]

/-- Witness for C4: a dollar-free value is substituted verbatim into
both occurrences. -/
theorem C4_literal_substitution_witness :
    (promptResolve twoPlaceholderStep [] [(strOf "x", strOf "VAL")] [] fsEmpty
      (strOf "codex")).1 = strOf "VAL" ++ strOf " and " ++ strOf "VAL" :=
  (C4_literal_substitution (strOf "VAL") (by decide) (by decide)).2

theorem mapGet_mapSet_self (m : List (Str × Str)) (k v : Str) :
    mapGet (mapSet m k v) k = some v := by
  induction m with
  | nil => simp [mapSet, mapGet]
  | cons kv t ih =>
    by_cases h : kv.1 = k
    · simp [mapSet, h, mapGet]
    · simp only [mapSet, if_neg h]
      simpa [mapGet, List.find?, h] using ih

theorem mapGet_mapSet_ne (m : List (Str × Str)) (k v k' : Str) (h : ¬(k' = k)) :
    mapGet (mapSet m k v) k' = mapGet m k' := by
  have hne : ¬(k = k') := fun hh => h hh.symm
  induction m with
  | nil => simp [mapSet, mapGet, List.find?, hne]
  | cons kv t ih =>
    by_cases hk : kv.1 = k
    · subst hk
      simp [mapSet, mapGet, List.find?, hne]
    · simp only [mapSet, if_neg hk]
      by_cases hk' : kv.1 = k'
      · simp [mapGet, List.find?, hk']
      · simpa [mapGet, List.find?, hk'] using ih

theorem extractLoop_get (jd : Option JVal) (l : List WorkflowOutput)
    (m : List (Str × Str)) (k : Str) :
    mapGet (extractLoop jd l m) k =
      if l.any (fun o => o.name == k) then some (extractedValue jd k)
      else mapGet m k := by
  induction l generalizing m with
  | nil => simp [extractLoop]
  | cons o l' ih =>
    simp only [extractLoop, List.foldl_cons] at *
    by_cases hany : l'.any (fun o => o.name == k) = true
    · simp [List.any_cons, hany, ih]
    · by_cases hk : o.name = k
      · subst hk
        simp [List.any_cons, hany, ih, mapGet_mapSet_self]
      · have hne : ¬(k = o.name) := fun hh => hk hh.symm
        simp [List.any_cons, hany, ih, mapGet_mapSet_ne _ _ _ _ hne,
          beq_eq_false_iff_ne.mpr hk]

theorem extractStringOutputs_str (s : Str) (souts : List WorkflowOutput)
    (outputs : List (Str × Str)) :
    extractStringOutputs (some (.str s)) souts outputs =
      .ok (extractLoop (recoverJsonData s) souts outputs) := by
  simp only [extractStringOutputs, recoverJsonData, jsToStrU, jsToStr]
  cases h : jsonParseCollapsed s <;> simp [h]

/-- Counterexample for C3: for the plain response `hello`, from which no
extraction mechanism recovers a JSON object, the declared string output
is set to `[Could not extract from response]`, not to the claimed
sentinel `[Not found in response]`. -/
theorem C3_counterexample :
    extractStringOutputs (some (.str (strOf "hello"))) [outcomeOutput] [] =
      .ok [(strOf "outcome", strOf "[Could not extract from response]")] ∧
    ¬(strOf "[Could not extract from response]" = strOf "[Not found in response]") := by
  constructor
  · rw [extractStringOutputs_str]
    exact congrArg Except.ok (by decide)
  · decide

/-- C3 (amended): parsing a string response never fails the step - the
extractor always returns a value map - and every declared string output
receives a value: `[Not found in response]` (with a warning) exactly
when a JSON object was recovered but lacks the key; when no JSON object
is recovered at all (none of the extraction mechanisms produced a
truthy object), the subprocess runner instead sets
`[Could not extract from response]`; a present key is stringified. -/
theorem C3_missing_output_sentinels (s : Str) (souts : List WorkflowOutput)
    (outputs : List (Str × Str)) :
    extractStringOutputs (some (.str s)) souts outputs =
      .ok (extractLoop (recoverJsonData s) souts outputs) ∧
    ∀ o ∈ souts,
      (recoverJsonData s = none →
        mapGet (extractLoop (recoverJsonData s) souts outputs) o.name =
          some (strOf "[Could not extract from response]")) ∧
      (∀ v, recoverJsonData s = some v → (jsTruthy v && jsTypeofObject v) = false →
        mapGet (extractLoop (recoverJsonData s) souts outputs) o.name =
          some (strOf "[Could not extract from response]")) ∧
      (∀ v, recoverJsonData s = some v → (jsTruthy v && jsTypeofObject v) = true →
        jvalField v o.name = none →
        mapGet (extractLoop (recoverJsonData s) souts outputs) o.name =
          some (strOf "[Not found in response]")) ∧
      (∀ v w, recoverJsonData s = some v → (jsTruthy v && jsTypeofObject v) = true →
        jvalField v o.name = some w →
        mapGet (extractLoop (recoverJsonData s) souts outputs) o.name =
          some (jsToStr w)) := by
  refine ⟨extractStringOutputs_str s souts outputs, ?_⟩
  intro o ho
  have hany : souts.any (fun o' => o'.name == o.name) = true :=
    List.any_eq_true.mpr ⟨o, ho, by simp⟩
  have hget := extractLoop_get (recoverJsonData s) souts outputs o.name
  rw [if_pos hany] at hget
  refine ⟨?_, ?_, ?_, ?_⟩
  · intro hnone
    rw [hget, hnone]
    rfl
  · intro v hv hobj
    rw [hget, hv]
    simp [extractedValue, hobj]
    rfl
  · intro v hv hobj hfield
    rw [hget, hv]
    simp [extractedValue, hobj, hfield]
  · intro v w hv hobj hfield
    rw [hget, hv]
    simp [extractedValue, hobj, hfield]

/-- Witness for C3: the concrete response `hello` with declared output
`outcome`. -/
theorem C3_missing_output_sentinels_witness :
    mapGet (extractLoop (recoverJsonData (strOf "hello")) [outcomeOutput] [])
      outcomeOutput.name = some (strOf "[Could not extract from response]") :=
  ((C3_missing_output_sentinels (strOf "hello") [outcomeOutput] []).2
    outcomeOutput (by simp)).1 (by rfl)

theorem mapHas_isSome (m : List (Str × Str)) (k : Str) :
    mapHas m k = (mapGet m k).isSome := by
  simp [mapHas, mapGet]

theorem mapHas_mapSet_self (m : List (Str × Str)) (k v : Str) :
    mapHas (mapSet m k v) k = true := by
  rw [mapHas_isSome, mapGet_mapSet_self]
  rfl

theorem mapHas_mapSet_of (m : List (Str × Str)) (k v k' : Str)
    (h : mapHas m k' = true) : mapHas (mapSet m k v) k' = true := by
  by_cases hk : k' = k
  · subst hk
    exact mapHas_mapSet_self m k' v
  · rw [mapHas_isSome, mapGet_mapSet_ne m k v k' hk, ← mapHas_isSome]
    exact h

theorem mapHas_extractLoop (jd : Option JVal) (l : List WorkflowOutput)
    (m : List (Str × Str)) (k : Str) (h : mapHas m k = true) :
    mapHas (extractLoop jd l m) k = true := by
  rw [mapHas_isSome, extractLoop_get]
  split
  · rfl
  · rw [← mapHas_isSome]
    exact h

theorem extractFileOutputs_cons (fs : Str → FileState) (o : WorkflowOutput)
    (t : List WorkflowOutput) (m : List (Str × Str)) (dir : Option Str) :
    extractFileOutputs fs (o :: t) m dir = extractFileOutputs fs t
      (match o.filename with
       | none => mapSet m o.name (strOf "[Missing filename]")
       | some fn =>
         match fs fn with
         | .missing => mapSet m o.name (strOf "[File not created]")
         | .unreadable _ => mapSet m o.name (strOf "[Could not read file]")
         | .readable content =>
           let filePath := match dir with
             | some d => joinPath d (basenameOf fn)
             | none => fn
           mapSet (mapSet m o.name filePath) (o.name ++ strOf "_content") content) dir := rfl

theorem mapHas_extractFileOutputs (fs : Str → FileState) (l : List WorkflowOutput)
    (m : List (Str × Str)) (dir : Option Str) (k : Str) (h : mapHas m k = true) :
    mapHas (extractFileOutputs fs l m dir) k = true := by
  induction l generalizing m with
  | nil => exact h
  | cons o t ih =>
    rw [extractFileOutputs_cons]
    apply ih
    split
    · exact mapHas_mapSet_of _ _ _ _ h
    · split
      · exact mapHas_mapSet_of _ _ _ _ h
      · exact mapHas_mapSet_of _ _ _ _ h
      · exact mapHas_mapSet_of _ _ _ _ (mapHas_mapSet_of _ _ _ _ h)

theorem mapHas_extractStringOutputs (rc : Option JVal) (souts : List WorkflowOutput)
    (m outs1 : List (Str × Str)) (k : Str) (h : mapHas m k = true)
    (he : extractStringOutputs rc souts m = .ok outs1) :
    mapHas outs1 k = true := by
  unfold extractStringOutputs at he
  split at he
  · cases he
    exact mapHas_extractLoop _ _ _ _ h
  · split at he
    · cases he
      exact mapHas_extractLoop _ _ _ _ h
    · cases he

theorem parseStepOutputs_preserves (tool : Str) (fs : Str → FileState)
    (step : WorkflowAgentStep) (raw : Str) (m : List (Str × Str))
    (dir : Option Str) (k : Str) (h : mapHas m k = true)
    (hp : (parseStepOutputs tool fs step raw m dir).1 = true) :
    mapHas (parseStepOutputs tool fs step raw m dir).2.2 k = true := by
  simp only [parseStepOutputs] at hp ⊢
  rcases hs : (if (step.outputs.filter (fun o => o.type = .string)).isEmpty
      then (.ok m : Except Str (List (Str × Str)))
      else extractStringOutputs (envelopeContent tool raw)
        (step.outputs.filter (fun o => o.type = .string)) m) with e | outs1
  · rw [hs] at hp
    simp at hp
  · simp only [hs] at hp ⊢
    have h1 : mapHas outs1 k = true := by
      by_cases hemp : (step.outputs.filter (fun o => o.type = .string)).isEmpty
      · rw [if_pos hemp] at hs
        cases hs
        exact h
      · rw [if_neg hemp] at hs
        exact mapHas_extractStringOutputs _ _ _ _ _ h hs
    split
    · exact h1
    · exact mapHas_extractFileOutputs _ _ _ _ _ h1

theorem stepOutcome_excl (result : LaunchResult) (authDetected : Bool)
    (recovery : Option RecoveryResult)
    (classify : Str → Str → Option Int → AgentErr)
    (stepName : Str) (timeoutSecs : Int) :
    (stepOutcome result authDetected recovery classify stepName timeoutSecs).1 = none ∨
    (stepOutcome result authDetected recovery classify stepName timeoutSecs).2 = none := by
  unfold stepOutcome
  repeat' split
  all_goals first | (left; rfl) | (right; rfl)

/-- Counterexample for C2: a step whose agent run is terminated by the
stderr authentication detector resolves with an output map holding only
the three error keys - `raw_output` and `input_prompt` are absent. -/
theorem C2_counterexample :
    ((runnerRun plainStep [] [] [] (strOf "claude") fsEmpty none
        ⟨some 1, [], [], false, false⟩ true none
        (fun _ _ _ => authenticationError) 0).toOption.map
      (fun r => (mapHas r.outputs (strOf "raw_output"),
        mapHas r.outputs (strOf "input_prompt"),
        mapHas r.outputs (strOf "error"),
        mapHas r.outputs (strOf "error_code"),
        mapHas r.outputs (strOf "error_retryable")))) =
      some (false, false, true, true, true) := by
  decide

/-- C2 (amended): whenever `Runner.run` resolves with a step result,
the shape of the output map is decided by the outcome of the launched
process.  When the run ends in a classified error, the map holds
exactly `error`, `error_code` and `error_retryable` - `raw_output` and
`input_prompt` are NOT present - and the step is not successful; only
when a raw output is obtained (exit 0 or a successful recovery) does
the map contain `raw_output` and `input_prompt`. -/
theorem C2_output_map_keys (step : WorkflowAgentStep)
    (workflowSteps : List WorkflowAgentStep) (inputs : List (Str × Str))
    (stepsOutput : List (Str × List (Str × Str))) (tool : Str)
    (fs : Str → FileState) (outputDir : Option Str) (result : LaunchResult)
    (authDetected : Bool) (recovery : Option RecoveryResult)
    (classify : Str → Str → Option Int → AgentErr) (timeoutSecs : Int)
    (r : RunnerStepResult)
    (h : runnerRun step workflowSteps inputs stepsOutput tool fs outputDir
      result authDetected recovery classify timeoutSecs = .ok r) :
    (∀ ae, stepOutcome result authDetected recovery classify step.name timeoutSecs =
        (none, some ae) →
      r.outputs = [(strOf "error", ae.message), (strOf "error_code", ae.code),
        (strOf "error_retryable", boolStr ae.isRetryable)] ∧
      mapHas r.outputs (strOf "raw_output") = false ∧
      mapHas r.outputs (strOf "input_prompt") = false ∧
      r.success = false) ∧
    (∀ raw, (stepOutcome result authDetected recovery classify step.name
        timeoutSecs).1 = some raw →
      mapHas r.outputs (strOf "raw_output") = true ∧
      mapHas r.outputs (strOf "input_prompt") = true) := by
  constructor
  · intro ae hout
    have h1 : (stepOutcome result authDetected recovery classify step.name
        timeoutSecs).1 = none := by rw [hout]
    have h2 : (stepOutcome result authDetected recovery classify step.name
        timeoutSecs).2 = some ae := by rw [hout]
    simp only [runnerRun, h1, h2] at h
    rw [Except.ok.injEq] at h
    subst h
    refine ⟨?_, ?_, ?_, ?_⟩
    · simp +decide [mapSet]
    · simp +decide [mapSet, mapHas, List.find?]
    · simp +decide [mapSet, mapHas, List.find?]
    · simp +decide [mapSet, mapHas, List.find?]
  · intro raw hraw
    have h2 : (stepOutcome result authDetected recovery classify step.name
        timeoutSecs).2 = none := by
      rcases stepOutcome_excl result authDetected recovery classify step.name
          timeoutSecs with h1 | h2
      · rw [hraw] at h1
        cases h1
      · exact h2
    simp only [runnerRun, hraw, h2] at h
    rcases hp : (parseStepOutputs tool fs step raw
        (mapSet (mapSet [] (strOf "raw_output") raw) (strOf "input_prompt")
          (promptResolve step workflowSteps inputs stepsOutput fs tool).1)
        outputDir).1 with _ | _
    · rw [hp] at h
      simp at h
    · rw [hp] at h
      simp only [if_true] at h
      rw [Except.ok.injEq] at h
      subst h
      have hbase : mapHas (mapSet (mapSet [] (strOf "raw_output") raw)
          (strOf "input_prompt")
          (promptResolve step workflowSteps inputs stepsOutput fs tool).1)
          (strOf "raw_output") = true := by
        apply mapHas_mapSet_of
        exact mapHas_mapSet_self _ _ _
      have hbase2 : mapHas (mapSet (mapSet [] (strOf "raw_output") raw)
          (strOf "input_prompt")
          (promptResolve step workflowSteps inputs stepsOutput fs tool).1)
          (strOf "input_prompt") = true := mapHas_mapSet_self _ _ _
      exact ⟨parseStepOutputs_preserves _ _ _ _ _ _ _ hbase hp,
        parseStepOutputs_preserves _ _ _ _ _ _ _ hbase2 hp⟩

/-- Witness for C2: a successful run of a plain step stores `raw_output`
and `input_prompt`. -/
theorem C2_output_map_keys_witness :
    mapHas (RunnerStepResult.outputs ⟨strOf "s", true, none, none,
      [(strOf "raw_output", strOf "hi"), (strOf "input_prompt", strOf "do it")]⟩)
      (strOf "raw_output") = true ∧
    mapHas (RunnerStepResult.outputs ⟨strOf "s", true, none, none,
      [(strOf "raw_output", strOf "hi"), (strOf "input_prompt", strOf "do it")]⟩)
      (strOf "input_prompt") = true :=
  (C2_output_map_keys plainStep [] [] [] (strOf "claude") fsEmpty none
      ⟨some 0, strOf "hi", [], false, false⟩ false none
      (fun _ _ _ => authenticationError) 0
      ⟨strOf "s", true, none, none,
        [(strOf "raw_output", strOf "hi"), (strOf "input_prompt", strOf "do it")]⟩
      (by rfl)).2 (strOf "hi") (by rfl)

theorem natDigitsGo_append (f : Nat) : ∀ n acc,
    natDigitsGo f n acc = natDigitsGo f n [] ++ acc := by
  induction f with
  | zero => intro n acc; rfl
  | succ f ih =>
    intro n acc
    by_cases h : n < 10
    · simp [natDigitsGo, h]
    · simp only [natDigitsGo, if_neg h]
      rw [ih (n / 10) (Char.ofNat (48 + n % 10) :: acc),
        ih (n / 10) [Char.ofNat (48 + n % 10)]]
      simp

theorem natDigitsGo_fuel : ∀ n f f', n ≤ f → n ≤ f' →
    natDigitsGo f n [] = natDigitsGo f' n [] := by
  intro n
  induction n using Nat.strong_induction_on with
  | _ n ih =>
    intro f f' hf hf'
    by_cases h : n < 10
    · rcases f with _ | f <;> rcases f' with _ | f' <;>
        simp [natDigitsGo, h]
    · rcases f with _ | f
      · omega
      · rcases f' with _ | f'
        · omega
        · simp only [natDigitsGo, if_neg h]
          rw [natDigitsGo_append f, natDigitsGo_append f']
          have hlt : n / 10 < n := Nat.div_lt_self (by omega) (by omega)
          rw [ih (n / 10) hlt f f' (by omega) (by omega)]

theorem natDigits_small (n : Nat) (h : n < 10) :
    natDigits n = [Char.ofNat (48 + n)] := by
  rcases n with _ | m
  · rfl
  · show natDigitsGo (m + 1) (m + 1) [] = _
    simp [natDigitsGo, h, Nat.mod_eq_of_lt h]

theorem natDigits_step (n : Nat) (h : 10 ≤ n) :
    natDigits n = natDigits (n / 10) ++ [Char.ofNat (48 + n % 10)] := by
  rcases n with _ | m
  · omega
  · show natDigitsGo (m + 1) (m + 1) [] = _
    simp only [natDigitsGo, if_neg (by omega : ¬(m + 1 < 10))]
    rw [natDigitsGo_append]
    have : natDigitsGo m ((m + 1) / 10) [] = natDigits ((m + 1) / 10) := by
      apply natDigitsGo_fuel
      · omega
      · rfl
    rw [this]

theorem digit_props : ∀ k < 10, isDigitCh (Char.ofNat (48 + k)) = true ∧
    (Char.ofNat (48 + k)).toNat = 48 + k ∧
    (k ≠ 0 → ¬(Char.ofNat (48 + k) = '0')) := by decide

theorem natDigits_spec : ∀ n, natDigits n ≠ [] ∧
    (∀ c ∈ natDigits n, isDigitCh c = true) ∧
    digitsVal (natDigits n) = n ∧
    (n ≠ 0 → (natDigits n).head? ≠ some '0') ∧
    (n < 10 → (natDigits n).length = 1) := by
  intro n
  induction n using Nat.strong_induction_on with
  | _ n ih =>
    by_cases h : n < 10
    · rw [natDigits_small n h]
      obtain ⟨hd, ht, hz⟩ := digit_props n h
      refine ⟨by simp, by simpa using hd, ?_, ?_, by simp⟩
      · simp [digitsVal, ht]
      · intro hn
        simpa using hz hn
    · rw [natDigits_step n (by omega)]
      have hlt : n / 10 < n := Nat.div_lt_self (by omega) (by omega)
      obtain ⟨hne, hdig, hval, hhead, _⟩ := ih (n / 10) hlt
      obtain ⟨hd, ht, _⟩ := digit_props (n % 10) (Nat.mod_lt n (by omega))
      refine ⟨by simp, ?_, ?_, ?_, by intro hh; omega⟩
      · intro c hc
        rcases List.mem_append.mp hc with hc | hc
        · exact hdig c hc
        · simp at hc
          subst hc
          exact hd
      · simp only [digitsVal, List.foldl_append]
        have : List.foldl (fun a c => a * 10 + (c.toNat - 48)) 0 (natDigits (n / 10)) = n / 10 := hval
        simp [this, ht]
        omega
      · intro _
        rcases List.exists_cons_of_ne_nil hne with ⟨c, t, hct⟩
        rw [hct]
        simp only [List.cons_append, List.head?_cons]
        have := hhead (by omega)
        rw [hct] at this
        simpa using this

theorem takeDigits_append : ∀ ds rest, (∀ c ∈ ds, isDigitCh c = true) →
    (∀ c, rest.head? = some c → isDigitCh c = false) →
    takeDigits (ds ++ rest) = (ds, rest) := by
  intro ds
  induction ds with
  | nil =>
    intro rest _ hr
    rcases rest with _ | ⟨c, r⟩
    · rfl
    · simp [takeDigits, hr c rfl]
  | cons c t ih =>
    intro rest hds hr
    have hc : isDigitCh c = true := hds c (by simp)
    have ht := ih rest (fun x hx => hds x (by simp [hx])) hr
    simp only [List.cons_append, takeDigits, hc, if_pos, List.append_eq, ht]

theorem natDigits_isEmpty (n : Nat) : (natDigits n).isEmpty = false := by
  have := (natDigits_spec n).1
  rcases hn : natDigits n with _ | ⟨c, t⟩
  · exact absurd hn this
  · rfl

theorem natDigits_not_leading_zero (n : Nat) :
    ¬(1 < (natDigits n).length ∧ (natDigits n).head? = some '0') := by
  rintro ⟨hlen, hhd⟩
  have hnz : n ≠ 0 := by
    intro hz
    rw [hz] at hlen
    simp [natDigits, natDigitsGo] at hlen
  exact (natDigits_spec n).2.2.2.1 hnz hhd

theorem parseIntTok_num (i : Int) (rest : Str) (h : numDelim rest = true) :
    parseIntTok (intChars i ++ rest) = some (i, rest) := by
  obtain ⟨hne, hdig, hval, _, _⟩ := natDigits_spec i.natAbs
  have hrest : ∀ x, rest.head? = some x → isDigitCh x = false := by
    intro x hx
    rcases rest with _ | ⟨y, r⟩
    · cases hx
    · simp only [List.head?_cons, Option.some.injEq] at hx
      subst hx
      simp [numDelim] at h
      exact h.1.1.1
  have htd : takeDigits (natDigits i.natAbs ++ rest) = (natDigits i.natAbs, rest) :=
    takeDigits_append _ _ hdig hrest
  have hdelim : rest.head?.any (fun c => c = '.' || c = 'e' || c = 'E') = false := by
    rcases rest with _ | ⟨y, r⟩
    · rfl
    · simp [numDelim] at h
      obtain ⟨⟨⟨h1, h2⟩, h3⟩, h4⟩ := h
      simp [Option.any, h2, h3, h4]
  rcases List.exists_cons_of_ne_nil hne with ⟨c, t, hct⟩
  have hcdig : isDigitCh c = true := hdig c (by rw [hct]; simp)
  have hcne : ¬(c = '-') := by
    intro hh
    rw [hh] at hcdig
    exact absurd hcdig (by decide)
  have hie : (natDigits i.natAbs).isEmpty = false := natDigits_isEmpty _
  have hlz := natDigits_not_leading_zero i.natAbs
  by_cases hi : i < 0
  · have hichars : intChars i = '-' :: natDigits i.natAbs := by
      simp [intChars, hi]
    rw [hichars]
    simp only [parseIntTok, List.cons_append, List.head?_cons, Option.some.injEq]
    simp only [decide_True, if_true, List.tail_cons, htd]
    simp only [hie, Bool.false_eq_true, if_false, if_neg hlz, hdelim]
    have hv : (-1 : Int) * (digitsVal (natDigits i.natAbs) : Int) = i := by
      rw [hval]
      omega
    simp [hv]
  · have hichars : intChars i = natDigits i.natAbs := by
      simp [intChars, hi]
    rw [hichars, hct]
    have hneg : ((c :: (t ++ rest) : Str).head? = some '-') = False := by
      simp [hcne]
    simp only [parseIntTok, List.cons_append, List.head?_cons, Option.some.injEq]
    rw [if_neg (by simp [hcne] : ¬(decide (c = '-') = true))]
    rw [← List.cons_append, ← hct, htd]
    simp only [hie, Bool.false_eq_true, if_false, if_neg hlz, hdelim]
    have hv1 : (1 : Int) * (digitsVal (natDigits i.natAbs) : Int) = i := by
      rw [hval]
      omega
    simp [hv1]
    intro hh
    exact absurd hh hcne

theorem hexDigit_roundtrip : ∀ m < 16, hexValCh (toHexDigitCh m) = some m := by
  decide

theorem parseStrBody_escape : ∀ s rest,
    parseStrBody (escapeStr s ++ '"' :: rest) = some (s, rest) := by
  intro s
  induction s with
  | nil =>
    intro rest
    show parseStrBody ('"' :: rest) = some ([], rest)
    rw [parseStrBody.eq_def]
    simp
  | cons c s ih =>
    intro rest
    have hstep : escapeStr (c :: s) = escapeChar c ++ escapeStr s := by
      simp [escapeStr]
    rw [hstep, List.append_assoc]
    by_cases h1 : c = '"'
    · subst h1
      simp [escapeChar, parseStrBody, unescapeCh, ih]
    · by_cases h2 : c = '\\'
      · subst h2
        simp [escapeChar, parseStrBody, unescapeCh, ih]
      · by_cases h3 : c = Char.ofNat 8
        · subst h3
          simp [escapeChar, parseStrBody, unescapeCh, ih]
        · by_cases h4 : c = '\t'
          · subst h4
            simp [escapeChar, parseStrBody, unescapeCh, ih]
          · by_cases h5 : c = '\n'
            · subst h5
              simp [escapeChar, parseStrBody, unescapeCh, ih]
            · by_cases h6 : c = Char.ofNat 12
              · subst h6
                simp [escapeChar, parseStrBody, unescapeCh, ih]
              · by_cases h7 : c = '\r'
                · subst h7
                  simp [escapeChar, parseStrBody, unescapeCh, ih]
                · by_cases h8 : c.toNat < 32
                  · have hech : escapeChar c = ['\\', 'u', '0', '0',
                        toHexDigitCh (c.toNat / 16), toHexDigitCh (c.toNat % 16)] := by
                      simp [escapeChar, h1, h2, h3, h4, h5, h6, h7, h8]
                    rw [hech]
                    have hx1 : hexValCh (toHexDigitCh (c.toNat / 16)) = some (c.toNat / 16) :=
                      hexDigit_roundtrip _ (by omega)
                    have hx2 : hexValCh (toHexDigitCh (c.toNat % 16)) = some (c.toNat % 16) :=
                      hexDigit_roundtrip _ (by omega)
                    have h00 : hexValCh '0' = some 0 := by decide
                    simp only [List.cons_append, List.nil_append, List.append_eq,
                      parseStrBody, if_true, hex4, h00, hx1, hx2,
                      Option.bind_eq_bind, Option.some_bind, ih]
                    have hvn : (((0 * 16 + 0) * 16 + c.toNat / 16) * 16 + c.toNat % 16) = c.toNat := by
                      omega
                    rw [hvn, Char.ofNat_toNat]
                    rw [if_neg (by decide)]
                  · have hech : escapeChar c = [c] := by
                      simp [escapeChar, h1, h2, h3, h4, h5, h6, h7, h8]
                    rw [hech]
                    have h8n : ¬(c.toNat < 32) := h8
                    simp only [List.cons_append, List.nil_append]
                    rw [parseStrBody.eq_def]
                    simp [h1, h2, h8n, ih]

theorem skipWs_ws_drop : ∀ w s, (∀ c ∈ w, isWsCh c = true) →
    skipWs (w ++ s) = skipWs s := by
  intro w
  induction w with
  | nil => intro s _; rfl
  | cons c t ih =>
    intro s hw
    have hc : isWsCh c = true := hw c (by simp)
    simp only [List.cons_append, skipWs, hc, if_pos]
    exact ih s (fun x hx => hw x (by simp [hx]))

theorem skipWs_not_ws (c : Char) (s : Str) (h : isWsCh c = false) :
    skipWs (c :: s) = c :: s := by
  simp [skipWs, h]

theorem spaces_ws (n : Nat) : ∀ c ∈ spaces n, isWsCh c = true := by
  intro c hc
  simp [spaces] at hc
  rw [hc.2]
  rfl

theorem digit_head_props (c : Char) (h : isDigitCh c = true) :
    isWsCh c = false ∧ ¬(c = ']') ∧ ¬(c = '}') := by
  have hb : 48 ≤ c.toNat ∧ c.toNat ≤ 57 := by
    simpa [isDigitCh] using h
  refine ⟨?_, ?_, ?_⟩
  · rcases hws : isWsCh c with _ | _
    · rfl
    · exfalso
      simp [isWsCh] at hws
      rcases hws with ((h1 | h1) | h1) | h1 <;> (rw [h1] at hb; exact absurd hb.1 (by decide))
  · intro he
    subst he
    exact absurd hb.2 (by decide)
  · intro he
    subst he
    exact absurd hb.2 (by decide)

theorem sizeV_pos (v : JVal) : 1 ≤ sizeV v := by
  rcases v with _ | b | i | s | (_ | ⟨x, xs⟩) | (_ | ⟨m, ms⟩) <;> simp [sizeV]

theorem renderV_head (ind : Nat) (v : JVal) : ∃ c t, renderV ind v = c :: t ∧
    isWsCh c = false ∧ ¬(c = ']') ∧ ¬(c = '}') := by
  rcases v with _ | b | i | s | xs | ms
  · exact ⟨'n', _, rfl, by decide, by decide, by decide⟩
  · rcases b with _ | _
    · exact ⟨'f', _, rfl, by decide, by decide, by decide⟩
    · exact ⟨'t', _, rfl, by decide, by decide, by decide⟩
  · by_cases hi : i < 0
    · refine ⟨'-', natDigits i.natAbs, ?_, by decide, by decide, by decide⟩
      simp [renderV, intChars, hi]
    · obtain ⟨hne, hdig, _, _, _⟩ := natDigits_spec i.natAbs
      rcases hct : natDigits i.natAbs with _ | ⟨c, t⟩
      · exact absurd hct hne
      · have hc : isDigitCh c = true := hdig c (by rw [hct]; simp)
        obtain ⟨hw, hb, hb2⟩ := digit_head_props c hc
        refine ⟨c, t, ?_, hw, hb, hb2⟩
        simp [renderV, intChars, hi, hct]
  · exact ⟨'"', _, rfl, by decide, by decide, by decide⟩
  · rcases xs with _ | ⟨x, xs⟩
    · exact ⟨'[', _, rfl, by decide, by decide, by decide⟩
    · exact ⟨'[', _, rfl, by decide, by decide, by decide⟩
  · rcases ms with _ | ⟨m, ms⟩
    · exact ⟨'{', _, rfl, by decide, by decide, by decide⟩
    · exact ⟨'{', _, rfl, by decide, by decide, by decide⟩

theorem size_le_len : ∀ n : Nat,
    (∀ v ind, sizeV v ≤ n → sizeV v ≤ (renderV ind v).length) ∧
    (∀ l ind, sizeItems l ≤ n → sizeItems l ≤ (renderItems ind l).length + 1) ∧
    (∀ l ind, sizeMembers l ≤ n → sizeMembers l ≤ (renderMembers ind l).length + 1) := by
  intro n
  induction n with
  | zero =>
    refine ⟨?_, ?_, ?_⟩
    · intro v ind hv
      have := sizeV_pos v
      omega
    · intro l ind hl
      rcases l with _ | ⟨x, xs⟩
      · simp [sizeItems]
      · have := sizeV_pos x
        simp only [sizeItems] at hl
        omega
    · intro l ind hl
      rcases l with _ | ⟨m, ms⟩
      · simp [sizeMembers]
      · have := sizeV_pos m.2
        simp only [sizeMembers] at hl
        omega
  | succ n ih =>
    obtain ⟨ihV, ihI, ihM⟩ := ih
    refine ⟨?_, ?_, ?_⟩
    · intro v ind hv
      rcases v with _ | b | i | s | (_ | ⟨x, xs⟩) | (_ | ⟨m, ms⟩)
      · simp [sizeV, renderV, strOf]
      · rcases b with _ | _ <;> simp [sizeV, renderV, strOf]
      · have hne : (natDigits i.natAbs) ≠ [] := (natDigits_spec i.natAbs).1
        have hlen : 1 ≤ (natDigits i.natAbs).length := by
          rcases hct : natDigits i.natAbs with _ | ⟨c, t⟩
          · exact absurd hct hne
          · simp
        simp only [sizeV, renderV, intChars]
        by_cases hi : i < 0 <;> simp [hi]
        all_goals omega
      · simp [sizeV, renderV, renderQ]
      · simp [sizeV, renderV]
      · have hs : sizeItems (x :: xs) ≤ n := by
          simp only [sizeV] at hv
          omega
        have h2 := ihI (x :: xs) (ind + 2) hs
        simp only [sizeV, renderV] at h2 ⊢
        simp only [List.length_cons, List.length_append] at h2 ⊢
        omega
      · simp [sizeV, renderV]
      · have hs : sizeMembers (m :: ms) ≤ n := by
          simp only [sizeV] at hv
          omega
        have h2 := ihM (m :: ms) (ind + 2) hs
        simp only [sizeV, renderV] at h2 ⊢
        simp only [List.length_cons, List.length_append] at h2 ⊢
        omega
    · intro l ind hl
      rcases l with _ | ⟨x, xs⟩
      · simp [sizeItems]
      · have hx : sizeV x ≤ n := by
          have := sizeV_pos x
          simp only [sizeItems] at hl
          omega
        have h1 := ihV x ind hx
        rcases xs with _ | ⟨y, ys⟩
        · simp only [sizeItems, renderItems, List.length_append]
          omega
        · have hxs : sizeItems (y :: ys) ≤ n := by
            simp only [sizeItems] at hl ⊢
            omega
          have h2 := ihI (y :: ys) ind hxs
          simp only [sizeItems] at h2 hl ⊢
          simp only [renderItems, List.length_append, List.length_cons]
          omega
    · intro l ind hl
      rcases l with _ | ⟨⟨k, v⟩, ms⟩
      · simp [sizeMembers]
      · have hx : sizeV v ≤ n := by
          have := sizeV_pos v
          simp only [sizeMembers] at hl
          omega
        have h1 := ihV v ind hx
        rcases ms with _ | ⟨m2, ms2⟩
        · simp only [sizeMembers, renderMembers, List.length_append, List.length_cons]
          omega
        · have hxs : sizeMembers (m2 :: ms2) ≤ n := by
            simp only [sizeMembers] at hl ⊢
            omega
          have h2 := ihM (m2 :: ms2) ind hxs
          simp only [sizeMembers] at h2 hl ⊢
          simp only [renderMembers, List.length_append, List.length_cons]
          omega

theorem skipWs_to (w : Str) (c : Char) (t : Str) (hw : ∀ x ∈ w, isWsCh x = true)
    (hc : isWsCh c = false) : skipWs (w ++ c :: t) = c :: t := by
  rw [skipWs_ws_drop w _ hw, skipWs_not_ws c t hc]

theorem nl_spaces_ws (n : Nat) : ∀ c ∈ ('\n' :: spaces n : Str), isWsCh c = true := by
  intro c hc
  rcases hc with _ | hc
  · rfl
  · exact spaces_ws n c (by assumption)

theorem intChars_head (i : Int) : ∃ c t, intChars i = c :: t ∧
    (c = '-' ∨ isDigitCh c = true) ∧ isWsCh c = false := by
  by_cases hi : i < 0
  · refine ⟨'-', natDigits i.natAbs, ?_, Or.inl rfl, by decide⟩
    simp [intChars, hi]
  · obtain ⟨hne, hdig, _, _, _⟩ := natDigits_spec i.natAbs
    rcases hct : natDigits i.natAbs with _ | ⟨c, t⟩
    · exact absurd hct hne
    · have hc : isDigitCh c = true := hdig c (by rw [hct]; simp)
      exact ⟨c, t, by simp [intChars, hi, hct], Or.inr hc, (digit_head_props c hc).1⟩

theorem skipWs_items_head (ind : Nat) (x : JVal) (xs : List JVal) (z : Str) :
    ∃ c t, skipWs ('\n' :: (renderItems ind (x :: xs) ++ z)) = c :: t ∧
      ¬(c = ']') ∧ ¬(c = '}') := by
  obtain ⟨c, t, hct, hws, hb1, hb2⟩ := renderV_head ind x
  rcases xs with _ | ⟨y, ys⟩
  · refine ⟨c, t ++ z, ?_, hb1, hb2⟩
    have he : ('\n' :: (renderItems ind [x] ++ z) : Str) =
        ('\n' :: spaces ind) ++ (c :: (t ++ z)) := by
      simp [renderItems, hct]
    rw [he]
    exact skipWs_to _ _ _ (nl_spaces_ws ind) hws
  · refine ⟨c, t ++ (',' :: '\n' :: renderItems ind (y :: ys) ++ z), ?_, hb1, hb2⟩
    have he : ('\n' :: (renderItems ind (x :: y :: ys) ++ z) : Str) =
        ('\n' :: spaces ind) ++ (c :: (t ++ (',' :: '\n' :: renderItems ind (y :: ys) ++ z))) := by
      simp [renderItems, hct]
    rw [he]
    exact skipWs_to _ _ _ (nl_spaces_ws ind) hws

theorem skipWs_members_head (ind : Nat) (m : Str × JVal) (ms : List (Str × JVal)) (z : Str) :
    ∃ t, skipWs ('\n' :: (renderMembers ind (m :: ms) ++ z)) = '"' :: t := by
  rcases m with ⟨k, v⟩
  rcases ms with _ | ⟨m2, ms2⟩
  · refine ⟨escapeStr k ++ ('"' :: (':' :: ' ' :: (renderV ind v ++ z))), ?_⟩
    have he : ('\n' :: (renderMembers ind [(k, v)] ++ z) : Str) =
        ('\n' :: spaces ind) ++
          ('"' :: (escapeStr k ++ ('"' :: (':' :: ' ' :: (renderV ind v ++ z))))) := by
      simp [renderMembers, renderQ]
    rw [he]
    exact skipWs_to _ _ _ (nl_spaces_ws ind) (by decide)
  · refine ⟨escapeStr k ++ ('"' :: (':' :: ' ' :: (renderV ind v ++
      (',' :: '\n' :: renderMembers ind (m2 :: ms2) ++ z)))), ?_⟩
    have he : ('\n' :: (renderMembers ind ((k, v) :: m2 :: ms2) ++ z) : Str) =
        ('\n' :: spaces ind) ++
          ('"' :: (escapeStr k ++ ('"' :: (':' :: ' ' :: (renderV ind v ++
            (',' :: '\n' :: renderMembers ind (m2 :: ms2) ++ z)))))) := by
      simp [renderMembers, renderQ]
    rw [he]
    exact skipWs_to _ _ _ (nl_spaces_ws ind) (by decide)
theorem ws_nl : ∀ c ∈ (['\n'] : Str), isWsCh c = true := by
  intro c hc
  simp at hc
  rw [hc]
  rfl

theorem ws_append (w w' : Str) (h : ∀ c ∈ w, isWsCh c = true)
    (h' : ∀ c ∈ w', isWsCh c = true) : ∀ c ∈ w ++ w', isWsCh c = true := by
  intro c hc
  rcases List.mem_append.mp hc with hc | hc
  · exact h c hc
  · exact h' c hc

theorem parse_render : ∀ f : Nat,
    (∀ v ind w rest, (∀ c ∈ w, isWsCh c = true) → numDelim rest = true →
      sizeV v ≤ f → parseV f (w ++ renderV ind v ++ rest) = some (v, rest)) ∧
    (∀ l ind ind0 w rest, (∀ c ∈ w, isWsCh c = true) → l ≠ [] →
      sizeItems l ≤ f →
      parseItems f (w ++ renderItems ind l ++ '\n' :: (spaces ind0 ++ ']' :: rest)) =
        some (l, rest)) ∧
    (∀ l ind ind0 w rest, (∀ c ∈ w, isWsCh c = true) → l ≠ [] →
      sizeMembers l ≤ f →
      parseMembers f (w ++ renderMembers ind l ++ '\n' :: (spaces ind0 ++ '}' :: rest)) =
        some (l, rest)) := by
  intro f
  induction f with
  | zero =>
    refine ⟨?_, ?_, ?_⟩
    · intro v ind w rest _ _ hsz
      have := sizeV_pos v
      omega
    · intro l ind ind0 w rest _ hne hsz
      rcases l with _ | ⟨x, xs⟩
      · exact absurd rfl hne
      · simp only [sizeItems] at hsz
        have := sizeV_pos x
        omega
    · intro l ind ind0 w rest _ hne hsz
      rcases l with _ | ⟨m, ms⟩
      · exact absurd rfl hne
      · simp only [sizeMembers] at hsz
        have := sizeV_pos m.2
        omega
  | succ f ih =>
    obtain ⟨ihV, ihI, ihM⟩ := ih
    refine ⟨?_, ?_, ?_⟩
    · intro v ind w rest hw hdelim hsz
      rcases v with _ | b | i | s | (_ | ⟨x, xs⟩) | (_ | ⟨m, ms⟩)
      · have hskip : skipWs (w ++ renderV ind .null ++ rest) =
            'n' :: 'u' :: 'l' :: 'l' :: rest := by
          have he : (w ++ renderV ind .null ++ rest : Str) =
              w ++ ('n' :: 'u' :: 'l' :: 'l' :: rest) := by
            show (w ++ ['n', 'u', 'l', 'l'] ++ rest : Str) = _
            simp
          rw [he]
          exact skipWs_to w 'n' _ hw (by decide)
        simp only [parseV]
        rw [hskip]
        rfl
      · rcases b with _ | _
        · have hskip : skipWs (w ++ renderV ind (.bool false) ++ rest) =
              'f' :: 'a' :: 'l' :: 's' :: 'e' :: rest := by
            have he : (w ++ renderV ind (.bool false) ++ rest : Str) =
                w ++ ('f' :: 'a' :: 'l' :: 's' :: 'e' :: rest) := by
              show (w ++ ['f', 'a', 'l', 's', 'e'] ++ rest : Str) = _
              simp
            rw [he]
            exact skipWs_to w 'f' _ hw (by decide)
          simp only [parseV]
          rw [hskip]
          rfl
        · have hskip : skipWs (w ++ renderV ind (.bool true) ++ rest) =
              't' :: 'r' :: 'u' :: 'e' :: rest := by
            have he : (w ++ renderV ind (.bool true) ++ rest : Str) =
                w ++ ('t' :: 'r' :: 'u' :: 'e' :: rest) := by
              show (w ++ ['t', 'r', 'u', 'e'] ++ rest : Str) = _
              simp
            rw [he]
            exact skipWs_to w 't' _ hw (by decide)
          simp only [parseV]
          rw [hskip]
          rfl
      · obtain ⟨c, t, hct, hcprop, hcws⟩ := intChars_head i
        have hskip : skipWs (w ++ renderV ind (.num i) ++ rest) = c :: (t ++ rest) := by
          have he : (w ++ renderV ind (.num i) ++ rest : Str) = w ++ (c :: (t ++ rest)) := by
            show (w ++ intChars i ++ rest : Str) = _
            simp [hct]
          rw [he]
          exact skipWs_to w c _ hw hcws
        have hpi : parseIntTok (c :: (t ++ rest)) = some (i, rest) := by
          have he2 : (c :: (t ++ rest) : Str) = intChars i ++ rest := by
            simp [hct]
          rw [he2]
          exact parseIntTok_num i rest hdelim
        have hbad : ∀ ch : Char, c = ch → isDigitCh ch = false → ¬(ch = '-') → False := by
          intro ch h1 h2 h3
          rcases hcprop with hm | hd
          · rw [h1] at hm
            exact h3 hm
          · rw [h1] at hd
            rw [hd] at h2
            cases h2
        simp only [parseV]
        rw [hskip]
        split
        · rename_i heq
          exfalso
          injection heq with h1 h2
          exact hbad 'n' h1 (by decide) (by decide)
        · rename_i heq
          exfalso
          injection heq with h1 h2
          exact hbad 't' h1 (by decide) (by decide)
        · rename_i heq
          exfalso
          injection heq with h1 h2
          exact hbad 'f' h1 (by decide) (by decide)
        · rename_i heq
          exfalso
          injection heq with h1 h2
          exact hbad '"' h1 (by decide) (by decide)
        · rename_i heq
          exfalso
          injection heq with h1 h2
          exact hbad '[' h1 (by decide) (by decide)
        · rename_i heq
          exfalso
          injection heq with h1 h2
          exact hbad '{' h1 (by decide) (by decide)
        · rename_i heq
          injection heq with h1 h2
          subst h1
          subst h2
          rw [if_pos hcprop, hpi]
        · rename_i heq
          cases heq
      · have hskip : skipWs (w ++ renderV ind (.str s) ++ rest) =
            '"' :: (escapeStr s ++ '"' :: rest) := by
          have he : (w ++ renderV ind (.str s) ++ rest : Str) =
              w ++ ('"' :: (escapeStr s ++ '"' :: rest)) := by
            simp [renderV, renderQ]
          rw [he]
          exact skipWs_to w '"' _ hw (by decide)
        simp only [parseV]
        rw [hskip]
        show (match parseStrBody (escapeStr s ++ '"' :: rest) with
          | some (body, r2) => some (JVal.str body, r2)
          | none => none) = some (JVal.str s, rest)
        rw [parseStrBody_escape s rest]
      · have hskip : skipWs (w ++ renderV ind (.arr []) ++ rest) = '[' :: ']' :: rest := by
          have he : (w ++ renderV ind (.arr []) ++ rest : Str) =
              w ++ ('[' :: ']' :: rest) := by
            simp [renderV]
          rw [he]
          exact skipWs_to w '[' _ hw (by decide)
        simp only [parseV]
        rw [hskip]
        rfl
      · have hskip : skipWs (w ++ renderV ind (.arr (x :: xs)) ++ rest) =
            '[' :: ('\n' :: (renderItems (ind + 2) (x :: xs) ++
              '\n' :: (spaces ind ++ ']' :: rest))) := by
          have he : (w ++ renderV ind (.arr (x :: xs)) ++ rest : Str) =
              w ++ ('[' :: ('\n' :: (renderItems (ind + 2) (x :: xs) ++
                '\n' :: (spaces ind ++ ']' :: rest)))) := by
            simp [renderV]
          rw [he]
          exact skipWs_to w '[' _ hw (by decide)
        obtain ⟨c, t, hin, hb1, hb2⟩ := skipWs_items_head (ind + 2) x xs
          ('\n' :: (spaces ind ++ ']' :: rest))
        have hitems := ihI (x :: xs) (ind + 2) ind ['\n'] rest ws_nl (by simp)
          (by simp only [sizeV] at hsz; omega)
        simp only [parseV]
        rw [hskip]
        show (match skipWs ('\n' :: (renderItems (ind + 2) (x :: xs) ++
            '\n' :: (spaces ind ++ ']' :: rest))) with
          | ']' :: r2 => some (JVal.arr [], r2)
          | _ =>
            match parseItems f ('\n' :: (renderItems (ind + 2) (x :: xs) ++
                '\n' :: (spaces ind ++ ']' :: rest))) with
            | some (xs2, r2) => some (JVal.arr xs2, r2)
            | none => none) = some (JVal.arr (x :: xs), rest)
        rw [hin]
        split
        · rename_i heq
          injection heq with h1 _
          exact absurd h1 hb1
        · have he2 : ('\n' :: (renderItems (ind + 2) (x :: xs) ++
              '\n' :: (spaces ind ++ ']' :: rest)) : Str) =
              ['\n'] ++ renderItems (ind + 2) (x :: xs) ++
                '\n' :: (spaces ind ++ ']' :: rest) := by
            simp
          rw [he2, hitems]
      · have hskip : skipWs (w ++ renderV ind (.obj []) ++ rest) = '{' :: '}' :: rest := by
          have he : (w ++ renderV ind (.obj []) ++ rest : Str) =
              w ++ ('{' :: '}' :: rest) := by
            simp [renderV]
          rw [he]
          exact skipWs_to w '{' _ hw (by decide)
        simp only [parseV]
        rw [hskip]
        rfl
      · have hskip : skipWs (w ++ renderV ind (.obj (m :: ms)) ++ rest) =
            '{' :: ('\n' :: (renderMembers (ind + 2) (m :: ms) ++
              '\n' :: (spaces ind ++ '}' :: rest))) := by
          have he : (w ++ renderV ind (.obj (m :: ms)) ++ rest : Str) =
              w ++ ('{' :: ('\n' :: (renderMembers (ind + 2) (m :: ms) ++
                '\n' :: (spaces ind ++ '}' :: rest)))) := by
            simp [renderV]
          rw [he]
          exact skipWs_to w '{' _ hw (by decide)
        obtain ⟨t, hin⟩ := skipWs_members_head (ind + 2) m ms
          ('\n' :: (spaces ind ++ '}' :: rest))
        have hmembers := ihM (m :: ms) (ind + 2) ind ['\n'] rest ws_nl (by simp)
          (by simp only [sizeV] at hsz; omega)
        simp only [parseV]
        rw [hskip]
        show (match skipWs ('\n' :: (renderMembers (ind + 2) (m :: ms) ++
            '\n' :: (spaces ind ++ '}' :: rest))) with
          | '}' :: r2 => some (JVal.obj [], r2)
          | _ =>
            match parseMembers f ('\n' :: (renderMembers (ind + 2) (m :: ms) ++
                '\n' :: (spaces ind ++ '}' :: rest))) with
            | some (ms2, r2) => some (JVal.obj ms2, r2)
            | none => none) = some (JVal.obj (m :: ms), rest)
        rw [hin]
        split
        · rename_i heq
          injection heq with h1 _
          exact absurd h1 (by decide)
        · have he2 : ('\n' :: (renderMembers (ind + 2) (m :: ms) ++
              '\n' :: (spaces ind ++ '}' :: rest)) : Str) =
              ['\n'] ++ renderMembers (ind + 2) (m :: ms) ++
                '\n' :: (spaces ind ++ '}' :: rest) := by
            simp
          rw [he2, hmembers]
    · intro l ind ind0 w rest hw hne hsz
      rcases l with _ | ⟨x, xs⟩
      · exact absurd rfl hne
      rcases xs with _ | ⟨y, ys⟩
      · have hx := ihV x ind (w ++ spaces ind) ('\n' :: (spaces ind0 ++ ']' :: rest))
          (ws_append w (spaces ind) hw (spaces_ws ind)) (by rfl)
          (by simp only [sizeItems] at hsz; omega)
        have he : (w ++ renderItems ind [x] ++
            '\n' :: (spaces ind0 ++ ']' :: rest) : Str) =
            (w ++ spaces ind) ++ renderV ind x ++ '\n' :: (spaces ind0 ++ ']' :: rest) := by
          simp [renderItems]
        simp only [parseItems]
        rw [he, hx]
        have hsk : skipWs ('\n' :: (spaces ind0 ++ ']' :: rest)) = ']' :: rest := by
          have he2 : ('\n' :: (spaces ind0 ++ ']' :: rest) : Str) =
              ('\n' :: spaces ind0) ++ ']' :: rest := by
            simp
          rw [he2]
          exact skipWs_to _ _ _ (nl_spaces_ws ind0) (by decide)
        show (match skipWs ('\n' :: (spaces ind0 ++ ']' :: rest)) with
          | ',' :: r2 =>
            match parseItems f r2 with
            | some (vs, r3) => some (x :: vs, r3)
            | none => none
          | ']' :: r2 => some ([x], r2)
          | _ => none) = some ([x], rest)
        rw [hsk]
        rfl
      · have hx := ihV x ind (w ++ spaces ind)
          (',' :: '\n' :: (renderItems ind (y :: ys) ++ '\n' :: (spaces ind0 ++ ']' :: rest)))
          (ws_append w (spaces ind) hw (spaces_ws ind)) (by rfl)
          (by simp only [sizeItems] at hsz; have := sizeV_pos y; omega)
        have he : (w ++ renderItems ind (x :: y :: ys) ++
            '\n' :: (spaces ind0 ++ ']' :: rest) : Str) =
            (w ++ spaces ind) ++ renderV ind x ++
              (',' :: '\n' :: (renderItems ind (y :: ys) ++
                '\n' :: (spaces ind0 ++ ']' :: rest))) := by
          simp [renderItems]
        simp only [parseItems]
        rw [he, hx]
        have hrec := ihI (y :: ys) ind ind0 ['\n'] rest ws_nl (by simp)
          (by simp only [sizeItems] at hsz ⊢; have := sizeV_pos x; omega)
        show (match skipWs (',' :: '\n' :: (renderItems ind (y :: ys) ++
            '\n' :: (spaces ind0 ++ ']' :: rest))) with
          | ',' :: r2 =>
            match parseItems f r2 with
            | some (vs, r3) => some (x :: vs, r3)
            | none => none
          | ']' :: r2 => some ([x], r2)
          | _ => none) = some (x :: y :: ys, rest)
        rw [skipWs_not_ws ',' _ (by decide)]
        have he2 : ('\n' :: (renderItems ind (y :: ys) ++
            '\n' :: (spaces ind0 ++ ']' :: rest)) : Str) =
            ['\n'] ++ renderItems ind (y :: ys) ++
              '\n' :: (spaces ind0 ++ ']' :: rest) := by
          simp
        show (match parseItems f ('\n' :: (renderItems ind (y :: ys) ++
            '\n' :: (spaces ind0 ++ ']' :: rest))) with
          | some (vs, r3) => some (x :: vs, r3)
          | none => none) = some (x :: y :: ys, rest)
        rw [he2, hrec]
    · intro l ind ind0 w rest hw hne hsz
      rcases l with _ | ⟨⟨k, v⟩, ms⟩
      · exact absurd rfl hne
      rcases ms with _ | ⟨m2, ms2⟩
      · have hv := ihV v ind [' '] ('\n' :: (spaces ind0 ++ '}' :: rest))
          (by intro c hc; simp at hc; rw [hc]; rfl) (by rfl)
          (by simp only [sizeMembers] at hsz; omega)
        have hskip : skipWs (w ++ renderMembers ind [(k, v)] ++
            '\n' :: (spaces ind0 ++ '}' :: rest)) =
            '"' :: (escapeStr k ++ '"' :: (':' :: ' ' ::
              (renderV ind v ++ '\n' :: (spaces ind0 ++ '}' :: rest)))) := by
          have he : (w ++ renderMembers ind [(k, v)] ++
              '\n' :: (spaces ind0 ++ '}' :: rest) : Str) =
              (w ++ spaces ind) ++ ('"' :: (escapeStr k ++ '"' :: (':' :: ' ' ::
                (renderV ind v ++ '\n' :: (spaces ind0 ++ '}' :: rest))))) := by
            simp [renderMembers, renderQ]
          rw [he]
          exact skipWs_to _ _ _ (ws_append w (spaces ind) hw (spaces_ws ind)) (by decide)
        simp only [parseMembers]
        rw [hskip]
        show (match parseStrBody (escapeStr k ++ '"' :: (':' :: ' ' ::
            (renderV ind v ++ '\n' :: (spaces ind0 ++ '}' :: rest)))) with
          | none => none
          | some (k2, r1) =>
            match skipWs r1 with
            | ':' :: r2 =>
              match parseV f r2 with
              | none => none
              | some (v2, r3) =>
                match skipWs r3 with
                | ',' :: r4 =>
                  match parseMembers f r4 with
                  | some (ms3, r5) => some ((k2, v2) :: ms3, r5)
                  | none => none
                | '}' :: r4 => some ([(k2, v2)], r4)
                | _ => none
            | _ => none) = some ([(k, v)], rest)
        rw [parseStrBody_escape k]
        show (match skipWs (':' :: ' ' :: (renderV ind v ++
            '\n' :: (spaces ind0 ++ '}' :: rest))) with
          | ':' :: r2 =>
            match parseV f r2 with
            | none => none
            | some (v2, r3) =>
              match skipWs r3 with
              | ',' :: r4 =>
                match parseMembers f r4 with
                | some (ms3, r5) => some ((k, v2) :: ms3, r5)
                | none => none
              | '}' :: r4 => some ([(k, v2)], r4)
              | _ => none
          | _ => none) = some ([(k, v)], rest)
        rw [skipWs_not_ws ':' _ (by decide)]
        have he3 : (' ' :: (renderV ind v ++ '\n' :: (spaces ind0 ++ '}' :: rest)) : Str) =
            [' '] ++ renderV ind v ++ '\n' :: (spaces ind0 ++ '}' :: rest) := by
          simp
        show (match parseV f (' ' :: (renderV ind v ++
            '\n' :: (spaces ind0 ++ '}' :: rest))) with
          | none => none
          | some (v2, r3) =>
            match skipWs r3 with
            | ',' :: r4 =>
              match parseMembers f r4 with
              | some (ms3, r5) => some ((k, v2) :: ms3, r5)
              | none => none
            | '}' :: r4 => some ([(k, v2)], r4)
            | _ => none) = some ([(k, v)], rest)
        rw [he3, hv]
        have hsk : skipWs ('\n' :: (spaces ind0 ++ '}' :: rest)) = '}' :: rest := by
          have he2 : ('\n' :: (spaces ind0 ++ '}' :: rest) : Str) =
              ('\n' :: spaces ind0) ++ '}' :: rest := by
            simp
          rw [he2]
          exact skipWs_to _ _ _ (nl_spaces_ws ind0) (by decide)
        show (match skipWs ('\n' :: (spaces ind0 ++ '}' :: rest)) with
          | ',' :: r4 =>
            match parseMembers f r4 with
            | some (ms3, r5) => some ((k, v) :: ms3, r5)
            | none => none
          | '}' :: r4 => some ([(k, v)], r4)
          | _ => none) = some ([(k, v)], rest)
        rw [hsk]
        rfl
      · have hv := ihV v ind [' ']
          (',' :: '\n' :: (renderMembers ind (m2 :: ms2) ++
            '\n' :: (spaces ind0 ++ '}' :: rest)))
          (by intro c hc; simp at hc; rw [hc]; rfl) (by rfl)
          (by simp only [sizeMembers] at hsz; have := sizeV_pos m2.2; omega)
        have hskip : skipWs (w ++ renderMembers ind ((k, v) :: m2 :: ms2) ++
            '\n' :: (spaces ind0 ++ '}' :: rest)) =
            '"' :: (escapeStr k ++ '"' :: (':' :: ' ' ::
              (renderV ind v ++ ',' :: '\n' :: (renderMembers ind (m2 :: ms2) ++
                '\n' :: (spaces ind0 ++ '}' :: rest))))) := by
          have he : (w ++ renderMembers ind ((k, v) :: m2 :: ms2) ++
              '\n' :: (spaces ind0 ++ '}' :: rest) : Str) =
              (w ++ spaces ind) ++ ('"' :: (escapeStr k ++ '"' :: (':' :: ' ' ::
                (renderV ind v ++ ',' :: '\n' :: (renderMembers ind (m2 :: ms2) ++
                  '\n' :: (spaces ind0 ++ '}' :: rest)))))) := by
            simp [renderMembers, renderQ]
          rw [he]
          exact skipWs_to _ _ _ (ws_append w (spaces ind) hw (spaces_ws ind)) (by decide)
        simp only [parseMembers]
        rw [hskip]
        show (match parseStrBody (escapeStr k ++ '"' :: (':' :: ' ' ::
            (renderV ind v ++ ',' :: '\n' :: (renderMembers ind (m2 :: ms2) ++
              '\n' :: (spaces ind0 ++ '}' :: rest))))) with
          | none => none
          | some (k2, r1) =>
            match skipWs r1 with
            | ':' :: r2 =>
              match parseV f r2 with
              | none => none
              | some (v2, r3) =>
                match skipWs r3 with
                | ',' :: r4 =>
                  match parseMembers f r4 with
                  | some (ms3, r5) => some ((k2, v2) :: ms3, r5)
                  | none => none
                | '}' :: r4 => some ([(k2, v2)], r4)
                | _ => none
            | _ => none) = some ((k, v) :: m2 :: ms2, rest)
        rw [parseStrBody_escape k]
        show (match skipWs (':' :: ' ' :: (renderV ind v ++
            ',' :: '\n' :: (renderMembers ind (m2 :: ms2) ++
              '\n' :: (spaces ind0 ++ '}' :: rest)))) with
          | ':' :: r2 =>
            match parseV f r2 with
            | none => none
            | some (v2, r3) =>
              match skipWs r3 with
              | ',' :: r4 =>
                match parseMembers f r4 with
                | some (ms3, r5) => some ((k, v2) :: ms3, r5)
                | none => none
              | '}' :: r4 => some ([(k, v2)], r4)
              | _ => none
          | _ => none) = some ((k, v) :: m2 :: ms2, rest)
        rw [skipWs_not_ws ':' _ (by decide)]
        have he3 : (' ' :: (renderV ind v ++ ',' :: '\n' :: (renderMembers ind (m2 :: ms2) ++
            '\n' :: (spaces ind0 ++ '}' :: rest))) : Str) =
            [' '] ++ renderV ind v ++ (',' :: '\n' :: (renderMembers ind (m2 :: ms2) ++
              '\n' :: (spaces ind0 ++ '}' :: rest))) := by
          simp
        show (match parseV f (' ' :: (renderV ind v ++
            ',' :: '\n' :: (renderMembers ind (m2 :: ms2) ++
              '\n' :: (spaces ind0 ++ '}' :: rest)))) with
          | none => none
          | some (v2, r3) =>
            match skipWs r3 with
            | ',' :: r4 =>
              match parseMembers f r4 with
              | some (ms3, r5) => some ((k, v2) :: ms3, r5)
              | none => none
            | '}' :: r4 => some ([(k, v2)], r4)
            | _ => none) = some ((k, v) :: m2 :: ms2, rest)
        rw [he3, hv]
        have hrec := ihM (m2 :: ms2) ind ind0 ['\n'] rest ws_nl (by simp)
          (by simp only [sizeMembers] at hsz ⊢; have := sizeV_pos v; omega)
        show (match skipWs (',' :: '\n' :: (renderMembers ind (m2 :: ms2) ++
            '\n' :: (spaces ind0 ++ '}' :: rest))) with
          | ',' :: r4 =>
            match parseMembers f r4 with
            | some (ms3, r5) => some ((k, v) :: ms3, r5)
            | none => none
          | '}' :: r4 => some ([(k, v)], r4)
          | _ => none) = some ((k, v) :: m2 :: ms2, rest)
        rw [skipWs_not_ws ',' _ (by decide)]
        have he2 : ('\n' :: (renderMembers ind (m2 :: ms2) ++
            '\n' :: (spaces ind0 ++ '}' :: rest)) : Str) =
            ['\n'] ++ renderMembers ind (m2 :: ms2) ++
              '\n' :: (spaces ind0 ++ '}' :: rest) := by
          simp
        show (match parseMembers f ('\n' :: (renderMembers ind (m2 :: ms2) ++
            '\n' :: (spaces ind0 ++ '}' :: rest))) with
          | some (ms3, r5) => some ((k, v) :: ms3, r5)
          | none => none) = some ((k, v) :: m2 :: ms2, rest)
        rw [he2, hrec]

theorem jsonParse_render (d : JVal) : jsonParse (renderV 0 d) = some d := by
  have hsz : sizeV d ≤ (renderV 0 d).length + 1 := by
    have h1 := (size_le_len (sizeV d)).1 d 0 (le_refl _)
    omega
  have hp := (parse_render ((renderV 0 d).length + 1)).1 d 0 [] [] (by intro c hc; cases hc)
    (by rfl) hsz
  simp only [List.nil_append, List.append_nil] at hp
  simp only [jsonParse, hp]
  rfl

/-- C9: a task document already at the current schema version survives
`save` - `load` - `save` byte-for-byte: `JSON.parse` inverts
`JSON.stringify(_, null, 2)` on the saved text, `migrate` returns the
document unchanged, and re-serialization emits the identical bytes. -/
theorem C9_roundtrip_current_version (legacy : JVal → JVal) (d : JVal)
    (h : versionIsCurrent d = true) :
    loadThenSaveBytes legacy (saveBytes d) = some (saveBytes d) := by
  simp only [loadThenSaveBytes, saveBytes, jsonParse_render, Option.map_some]
  simp [migrate, h]

/-- Witness for C9: the concrete current-version document `sampleDoc`. -/
theorem C9_roundtrip_current_version_witness :
    loadThenSaveBytes (fun v => v) (saveBytes sampleDoc) = some (saveBytes sampleDoc) :=
  C9_roundtrip_current_version (fun v => v) sampleDoc (by rfl)
